import Mathlib

/-!
Verification of the snowflake stage exporter core.

This file gives a shallow embedding, in Lean 4, of the exporter engine of
the repository (`snowflake_stage_exporter/__init__.py` and
`snowflake_stage_exporter/utils.py`) and proves or refutes the frozen
claims about it.  Pure helpers (`normalize_identifier`, SHA-256 hashing,
JSON serialization) become Lean functions; the stateful exporter becomes
explicit state passing over an `Exporter` record, with a step relation
over the operations a caller can perform (`export_item`,
`flush_table_buffer`, `flush_all_table_buffers`).  Buffers and staged file
contents are modelled as their UTF-8 byte sequences (`List Nat`), which is
what the Python code writes to its temporary files.
-/

set_option maxHeartbeats 1000000

/-- UTF-8 encoding of a single character, as byte values (model of Python
`str.encode("utf8")` for one code point). -/
def utf8EncodeChar (c : Char) : List Nat :=
  let u := c.toNat
  if u < 128 then [u]
  else if u < 2048 then [192 + u / 64, 128 + u % 64]
  else if u < 65536 then [224 + u / 4096, 128 + u / 64 % 64, 128 + u % 64]
  else [240 + u / 262144, 128 + u / 4096 % 64, 128 + u / 64 % 64, 128 + u % 64]

/-- UTF-8 encoding of a string as a byte sequence (model of Python
`value.encode("utf8")`). -/
def utf8Bytes (s : String) : List Nat :=
  s.data.flatMap utf8EncodeChar

/-- One hexadecimal digit (lower case). -/
def hexDigit (n : Nat) : Char :=
  if n < 10 then Char.ofNat (48 + n) else Char.ofNat (87 + n)

/-- Lower-case hexadecimal rendering of a 32-bit word, 8 digits. -/
def hex8 (n : Nat) : String :=
  String.mk ((List.range 8).map (fun i => hexDigit (n / 16 ^ (7 - i) % 16)))

/-- 32-bit rotate right. -/
def rotr32 (x n : Nat) : Nat :=
  (x >>> n ||| x <<< (32 - n)) % 4294967296

/-- The SHA-256 round constants. -/
def sha256K : List Nat :=
  [1116352408, 1899447441, 3049323471, 3921009573, 961987163, 1508970993,
   2453635748, 2870763221, 3624381080, 310598401, 607225278, 1426881987,
   1925078388, 2162078206, 2614888103, 3248222580, 3835390401, 4022224774,
   264347078, 604807628, 770255983, 1249150122, 1555081692, 1996064986,
   2554220882, 2821834349, 2952996808, 3210313671, 3336571891, 3584528711,
   113926993, 338241895, 666307205, 773529912, 1294757372, 1396182291,
   1695183700, 1986661051, 2177026350, 2456956037, 2730485921, 2820302411,
   3259730800, 3345764771, 3516065817, 3600352804, 4094571909, 275423344,
   430227734, 506948616, 659060556, 883997877, 958139571, 1322822218,
   1537002063, 1747873779, 1955562222, 2024104815, 2227730452, 2361852424,
   2428436474, 2756734187, 3204031479, 3329325298]

/-- SHA-256 message padding: append 0x80, zero bytes and the 64-bit
big-endian bit length so the total is a multiple of 64 bytes. -/
def sha256Pad (msg : List Nat) : List Nat :=
  let len := msg.length
  let zeros := (64 - (len + 9) % 64) % 64
  let bitLen := 8 * len
  msg ++ [0x80] ++ List.replicate zeros 0 ++
    (List.range 8).map (fun i => bitLen / 256 ^ (7 - i) % 256)

/-- Big-endian 32-bit words from a byte sequence. -/
def bytesToWords : List Nat → List Nat
  | b0 :: b1 :: b2 :: b3 :: rest =>
      (b0 * 16777216 + b1 * 65536 + b2 * 256 + b3) :: bytesToWords rest
  | _ => []

/-- Extend the 16 message-schedule words to 64. -/
def sha256Extend : Nat → Array Nat → Array Nat
  | 0, ws => ws
  | n + 1, ws =>
      let i := ws.size
      let w15 := ws.getD (i - 15) 0
      let w2 := ws.getD (i - 2) 0
      let s0 := (rotr32 w15 7 ^^^ rotr32 w15 18 ^^^ w15 >>> 3) % 4294967296
      let s1 := (rotr32 w2 17 ^^^ rotr32 w2 19 ^^^ w2 >>> 10) % 4294967296
      let w := (ws.getD (i - 16) 0 + s0 + ws.getD (i - 7) 0 + s1) % 4294967296
      sha256Extend n (ws.push w)

/-- Running state of the SHA-256 compression function. -/
structure Sha256State where
  a : Nat
  b : Nat
  c : Nat
  d : Nat
  e : Nat
  f : Nat
  g : Nat
  h : Nat

/-- One round of the SHA-256 compression function. -/
def sha256Round (st : Sha256State) (kw : Nat × Nat) : Sha256State :=
  let s1 := rotr32 st.e 6 ^^^ rotr32 st.e 11 ^^^ rotr32 st.e 25
  let ch := (st.e &&& st.f) ^^^ ((4294967295 - st.e) &&& st.g)
  let t1 := (st.h + s1 + ch + kw.1 + kw.2) % 4294967296
  let s0 := rotr32 st.a 2 ^^^ rotr32 st.a 13 ^^^ rotr32 st.a 22
  let mj := (st.a &&& st.b) ^^^ (st.a &&& st.c) ^^^ (st.b &&& st.c)
  let t2 := (s0 + mj) % 4294967296
  ⟨(t1 + t2) % 4294967296, st.a, st.b, st.c, (st.d + t1) % 4294967296,
    st.e, st.f, st.g⟩

/-- Process one 64-byte chunk, updating the eight hash words. -/
def sha256Chunk (hs : List Nat) (chunk : List Nat) : List Nat :=
  let ws := sha256Extend 48 (bytesToWords chunk).toArray
  let st0 : Sha256State :=
    ⟨hs.getD 0 0, hs.getD 1 0, hs.getD 2 0, hs.getD 3 0,
     hs.getD 4 0, hs.getD 5 0, hs.getD 6 0, hs.getD 7 0⟩
  let st := (sha256K.zip ws.toList).foldl sha256Round st0
  [(hs.getD 0 0 + st.a) % 4294967296, (hs.getD 1 0 + st.b) % 4294967296,
   (hs.getD 2 0 + st.c) % 4294967296, (hs.getD 3 0 + st.d) % 4294967296,
   (hs.getD 4 0 + st.e) % 4294967296, (hs.getD 5 0 + st.f) % 4294967296,
   (hs.getD 6 0 + st.g) % 4294967296, (hs.getD 7 0 + st.h) % 4294967296]

/-- Process a padded message 64 bytes at a time; the first argument is the
number of 64-byte chunks remaining (structural fuel, so that the function
reduces definitionally). -/
def sha256Chunks : Nat → List Nat → List Nat → List Nat
  | 0, hs, _ => hs
  | n + 1, hs, l => sha256Chunks n (sha256Chunk hs (l.take 64)) (l.drop 64)

/-- SHA-256 of a byte sequence, as the lower-case hex digest (model of
Python `hashlib.sha256(...).hexdigest()`). -/
def sha256Hex (msg : List Nat) : String :=
  let start : List Nat :=
    [1779033703, 3144134277, 1013904242, 2773480762,
     1359893119, 2600822924, 528734635, 1541459225]
  let padded := sha256Pad msg
  let hs := sha256Chunks (padded.length / 64) start padded
  String.join (hs.map hex8)

/-- SHA-256 of the empty message matches the well-known digest (also the
fallback identifier for `""` in the repository's own test suite). -/
theorem sha256Hex_nil :
    sha256Hex [] =
      "e3b0c44298fc1c149afbf4c8996fb92427ae41e4649b934ca495991b7852b855" := by
  decide

/-- First `n` characters of a string, computed on the underlying character
list (model of Python slicing `s[:n]`). -/
def strTake (s : String) (n : Nat) : String :=
  String.mk (s.data.take n)

/-- SHA-256 of three spaces starts with the hex digits the repository's
test suite records for `normalize_identifier("   ")`. -/
theorem sha256Hex_spaces : strTake (sha256Hex (utf8Bytes "   ")) 6 = "0aad7d" := by
  decide

/-! ## Identifier normalization (`utils.normalize_identifier`)

The Python source is

```
value = re.sub(r"(?i)[^a-z\d_$]+", " ", value).strip()
if not value:
    return "_empty_" + sha256(orig_value.encode("utf8")).hexdigest()[:6]
value = re.sub(r" +", "_", value)
if not re.match(r"(?i)[_a-z]", value):
    value = "_" + value
return value
```

Python's regex engine is Unicode-aware: in `(?i)[^a-z\d_$]` the `\d`
matches every Unicode decimal digit (category `Nd`, e.g. `٣`, `３`) and
`re.IGNORECASE` folds the letters `İ ı ſ K` (U+0130, U+0131, U+017F,
U+212A) into `[a-z]`; `(?i)[_a-z]` likewise accepts those four letters.
The classes below model this exactly: the ASCII core plus the closed
list of non-ASCII code-point ranges CPython's `re` keeps, obtained by
matching the source's patterns against every code point. -/

/-- Character class `[A-Za-z0-9_$]`: the ASCII core of the kept class,
and the class named by the specification's algorithm. -/
def specKeptChar (c : Char) : Bool :=
  decide ((97 ≤ c.toNat ∧ c.toNat ≤ 122) ∨ (65 ≤ c.toNat ∧ c.toNat ≤ 90) ∨
    (48 ≤ c.toNat ∧ c.toNat ≤ 57) ∨ c = '_' ∨ c = '$')

/-- Character class `[_A-Za-z]`: the ASCII core of the leading-character
class, and the class named by the specification's algorithm. -/
def specLeadChar (c : Char) : Bool :=
  decide ((97 ≤ c.toNat ∧ c.toNat ≤ 122) ∨ (65 ≤ c.toNat ∧ c.toNat ≤ 90) ∨ c = '_')

/-- Membership of a code point in a list of closed ranges. -/
def inRanges (rs : List (Nat × Nat)) (n : Nat) : Bool :=
  rs.any (fun p => decide (p.1 ≤ n) && decide (n ≤ p.2))

/-- The non-ASCII code points matching `(?i)[a-z\d_$]` in CPython:
`İ ı` (304–305), `ſ` (383), `K` (8490), and every non-ASCII Unicode
decimal-digit block (closed ranges over code points). -/
def extraKeptRanges : List (Nat × Nat) :=
  [(304, 305), (383, 383), (1632, 1641), (1776, 1785), (1984, 1993),
   (2406, 2415), (2534, 2543), (2662, 2671), (2790, 2799), (2918, 2927),
   (3046, 3055), (3174, 3183), (3302, 3311), (3430, 3439), (3558, 3567),
   (3664, 3673), (3792, 3801), (3872, 3881), (4160, 4169), (4240, 4249),
   (6112, 6121), (6160, 6169), (6470, 6479), (6608, 6617), (6784, 6793),
   (6800, 6809), (6992, 7001), (7088, 7097), (7232, 7241), (7248, 7257),
   (8490, 8490), (42528, 42537), (43216, 43225), (43264, 43273),
   (43472, 43481), (43504, 43513), (43600, 43609), (44016, 44025),
   (65296, 65305), (66720, 66729), (68912, 68921), (69734, 69743),
   (69872, 69881), (69942, 69951), (70096, 70105), (70384, 70393),
   (70736, 70745), (70864, 70873), (71248, 71257), (71360, 71369),
   (71472, 71481), (71904, 71913), (72016, 72025), (72784, 72793),
   (73040, 73049), (73120, 73129), (92768, 92777), (92864, 92873),
   (93008, 93017), (120782, 120831), (123200, 123209), (123632, 123641),
   (125264, 125273), (130032, 130041)]

/-- The kept class of the source's first substitution, `(?i)[^a-z\d_$]`
complemented: the ASCII class plus every Unicode decimal digit and the
case-folded letters `İ ı ſ K`. -/
def isKeptChar (c : Char) : Bool :=
  specKeptChar c || inRanges extraKeptRanges c.toNat

/-- The non-ASCII letters matching `(?i)[_a-z]` in CPython: `İ ı ſ K`. -/
def extraLeadRanges : List (Nat × Nat) :=
  [(304, 305), (383, 383), (8490, 8490)]

/-- The leading-character class of the source's `re.match(r"(?i)[_a-z]", ...)`. -/
def isLeadChar (c : Char) : Bool :=
  specLeadChar c || inRanges extraLeadRanges c.toNat

/-- Scan for `re.sub(r"[^...]+", " ", value)`: each maximal run of
non-kept characters becomes a single space.  The flag records whether the
previous character was part of such a run. -/
def collapseRunsAux : Bool → List Char → List Char
  | _, [] => []
  | inRun, c :: cs =>
    if isKeptChar c then c :: collapseRunsAux false cs
    else if inRun then collapseRunsAux true cs
    else ' ' :: collapseRunsAux true cs

/-- Scan for `re.sub(r" +", "_", value)`: each maximal run of spaces
becomes a single underscore. -/
def underscoreAux : Bool → List Char → List Char
  | _, [] => []
  | inRun, c :: cs =>
    if c = ' ' then
      (if inRun then underscoreAux true cs else '_' :: underscoreAux true cs)
    else c :: underscoreAux false cs

/-- Model of `str.strip()`.  After the first substitution the string
contains only kept characters and spaces, so stripping whitespace is
stripping spaces. -/
def trimSpaces (l : List Char) : List Char :=
  ((l.dropWhile (fun c => c = ' ')).reverse.dropWhile (fun c => c = ' ')).reverse

/-- The exporter's `normalize_identifier`, translated from
`snowflake_stage_exporter/utils.py`. -/
def normalize_identifier (value : String) : String :=
  let collapsed := trimSpaces (collapseRunsAux false value.data)
  if collapsed = [] then
    "_empty_" ++ strTake (sha256Hex (utf8Bytes value)) 6
  else
    let underscored := underscoreAux false collapsed
    String.mk
      (if isLeadChar (underscored.headD ' ') then underscored
       else '_' :: underscored)

/-- Dropping a matching run never lengthens a list. -/
theorem dropWhile_length_le {α : Type} (p : α → Bool) (l : List α) :
    (l.dropWhile p).length ≤ l.length := by
  induction l with
  | nil => simp
  | cons a l ih =>
    simp only [List.dropWhile]
    split
    · exact Nat.le_trans ih (Nat.le_succ _)
    · exact Nat.le_refl _

/-- Maximal runs of kept characters under the source's class, in order
(the tokens separated by runs of characters outside the class).  Bridge
between the collapse/underscore scans and the token-join view. -/
def specTokens : List Char → List (List Char)
  | [] => []
  | c :: cs =>
    if isKeptChar c then
      (c :: cs.takeWhile isKeptChar) :: specTokens (cs.dropWhile isKeptChar)
    else specTokens cs
termination_by l => l.length
decreasing_by
  · simp only [List.length_cons]
    exact Nat.lt_succ_of_le (dropWhile_length_le _ _)
  · simp

/-- Token-join characterization of the source: join the maximal
kept-character runs (under the source's class) with single underscores,
with the `_empty_`-plus-hash fallback and the leading-underscore guard.
Proved equal to `normalize_identifier` below. -/
def normalizeIdentifierTokens (value : String) : String :=
  match specTokens value.data with
  | [] => "_empty_" ++ strTake (sha256Hex (utf8Bytes value)) 6
  | tk :: rest =>
    let joined := List.intercalate ['_'] (tk :: rest)
    String.mk
      (if isLeadChar (joined.headD ' ') then joined else '_' :: joined)

/-- Maximal runs of characters of the specification's stated class
`[A-Za-z0-9_$]`.  Used only by the reference definition below. -/
def specTokensA : List Char → List (List Char)
  | [] => []
  | c :: cs =>
    if specKeptChar c then
      (c :: cs.takeWhile specKeptChar) :: specTokensA (cs.dropWhile specKeptChar)
    else specTokensA cs
termination_by l => l.length
decreasing_by
  · simp only [List.length_cons]
    exact Nat.lt_succ_of_le (dropWhile_length_le _ _)
  · simp

/-- Reference definition following the specification's words: collapsing
each run of characters outside `[A-Za-z0-9_$]` into one space, trimming,
and replacing the remaining internal space runs by underscores amounts to
joining the maximal kept-character runs with single underscores; if
nothing remains, the result is the literal prefix `_empty_` plus the first
6 hex characters of the SHA-256 hash of the original input; if the result
does not start with a letter (`[A-Za-z]`) or underscore, an underscore is
prepended. -/
def normalizeIdentifierSpec (value : String) : String :=
  match specTokensA value.data with
  | [] => "_empty_" ++ strTake (sha256Hex (utf8Bytes value)) 6
  | tk :: rest =>
    let joined := List.intercalate ['_'] (tk :: rest)
    String.mk
      (if specLeadChar (joined.headD ' ') then joined else '_' :: joined)

/-- The repository's own test vectors for `normalize_identifier`
(`tests/test_utils.py`), checked against the embedding. -/
theorem normalize_identifier_test_vectors :
    normalize_identifier "A.B. C " = "A_B_C" ∧
    normalize_identifier "" = "_empty_e3b0c4" ∧
    normalize_identifier "91 $" = "_91_$" ∧
    normalize_identifier "$" = "_$" ∧
    normalize_identifier "   " = "_empty_0aad7d" ∧
    normalize_identifier "abc" = "abc" ∧
    normalize_identifier "ABc" = "ABc" ∧
    normalize_identifier "  AB;c =+ " = "AB_c" ∧
    normalize_identifier "  AB   c" = "AB_c" := by
  decide

/-! ## Python values and JSON serialization

Records handed to `export_item` are dictionaries of JSON-like values.
`PyVal` is the tagged variant of the value kinds the exporter recognizes
(`None`, `bool`, `int`, `float`, `str`, `list`, `dict`), plus an explicit
`unsupportedV` tag standing for any other Python object (bytes, complex,
sets, ...), which `json.dumps` rejects with a `TypeError`.  Floating point
values are represented by the decimal literal `json.dumps`/`str` would
emit for them, which is all the exporter ever looks at besides their
runtime type. -/

mutual
inductive PyVal where
  | nullV
  | boolV (b : Bool)
  | intV (n : Int)
  | floatV (lit : String)
  | strV (s : String)
  | listV (xs : PyArr)
  | dictV (xs : PyObj)
  | unsupportedV (tag : String)
inductive PyArr where
  | nil
  | cons (v : PyVal) (rest : PyArr)
inductive PyObj where
  | nil
  | cons (k : String) (v : PyVal) (rest : PyObj)
end

/-- Errors the exporter's entry points can raise: `KeyError`/`IndexError`
from `str.format` with a missing placeholder source, `TypeError` from
`json.dumps` on an unsupported value, `KeyError` from subscripting a
missing dictionary key, the `SnowflakeStageExporterError` raised when no
valid columns are found, and `ValueError` from unpacking `rsplit`. -/
inductive ExpErr where
  | formatKeyError
  | serTypeError
  | keyError
  | noValidColumns
  | valueError
deriving DecidableEq, Repr

/-- Four hex digits (for `\uXXXX` escapes). -/
def hex4 (n : Nat) : String :=
  String.mk ((List.range 4).map (fun i => hexDigit (n / 16 ^ (3 - i) % 16)))

/-- JSON escaping of one character as `json.dumps` performs it with its
default `ensure_ascii=True`. -/
def jsonEscapeChar (c : Char) : String :=
  if c = '"' then "\\\""
  else if c = '\\' then "\\\\"
  else if c = '\n' then "\\n"
  else if c = '\t' then "\\t"
  else if c = '\r' then "\\r"
  else if c.toNat = 8 then "\\b"
  else if c.toNat = 12 then "\\f"
  else if c.toNat < 32 then "\\u" ++ hex4 c.toNat
  else if c.toNat < 128 then String.mk [c]
  else if c.toNat < 65536 then "\\u" ++ hex4 c.toNat
  else
    let u := c.toNat - 65536
    "\\u" ++ hex4 (55296 + u / 1024) ++ "\\u" ++ hex4 (56320 + u % 1024)

/-- A JSON string literal for `s`. -/
def jsonQuote (s : String) : String :=
  "\"" ++ String.join (s.data.map jsonEscapeChar) ++ "\""

mutual
/-- `json.dumps` on a value, with the default separators; fails with a
`TypeError` exactly when the value contains an unsupported object. -/
def dumpsVal : PyVal → Except ExpErr String
  | .nullV => .ok "null"
  | .boolV true => .ok "true"
  | .boolV false => .ok "false"
  | .intV n => .ok (toString n)
  | .floatV lit => .ok lit
  | .strV s => .ok (jsonQuote s)
  | .listV xs =>
    match dumpsArrParts xs with
    | .error er => .error er
    | .ok parts => .ok ("[" ++ String.intercalate ", " parts ++ "]")
  | .dictV xs =>
    match dumpsObjParts xs with
    | .error er => .error er
    | .ok parts => .ok ("\x7b" ++ String.intercalate ", " parts ++ "\x7d")
  | .unsupportedV _ => .error .serTypeError
/-- Serialized elements of a list value. -/
def dumpsArrParts : PyArr → Except ExpErr (List String)
  | .nil => .ok []
  | .cons v rest =>
    match dumpsVal v with
    | .error er => .error er
    | .ok s =>
      match dumpsArrParts rest with
      | .error er => .error er
      | .ok tl => .ok (s :: tl)
/-- Serialized `"key": value` pairs of a dict value. -/
def dumpsObjParts : PyObj → Except ExpErr (List String)
  | .nil => .ok []
  | .cons k v rest =>
    match dumpsVal v with
    | .error er => .error er
    | .ok s =>
      match dumpsObjParts rest with
      | .error er => .error er
      | .ok tl => .ok ((jsonQuote k ++ ": " ++ s) :: tl)
end

deriving instance DecidableEq for Except

/-- Serialization agrees with the record lines the repository's test suite
expects in its buffers. -/
theorem dumpsVal_examples :
    dumpsVal (.dictV (.cons "myfield" (.intV 1) .nil)) = .ok "\x7b\"myfield\": 1\x7d" ∧
    dumpsVal (.dictV (.cons "myfield" (.intV 2)
        (.cons "x" (.dictV .nil) .nil))) = .ok "\x7b\"myfield\": 2, \"x\": \x7b\x7d\x7d" ∧
    dumpsVal (.dictV (.cons "a" (.listV (.cons (.unsupportedV "bytes") .nil)) .nil)) =
      .error .serTypeError := by
  decide

mutual
/-- Python `repr` of a value, used when values are interpolated into the
destination-path template.  Exotic escaping inside `repr` of strings is
not refined further; routing templates interpolate scalar fields. -/
def pyReprVal : PyVal → String
  | .nullV => "None"
  | .boolV true => "True"
  | .boolV false => "False"
  | .intV n => toString n
  | .floatV lit => lit
  | .strV s => "'" ++ s ++ "'"
  | .listV xs => "[" ++ String.intercalate ", " (pyReprArr xs) ++ "]"
  | .dictV xs => "\x7b" ++ String.intercalate ", " (pyReprObj xs) ++ "\x7d"
  | .unsupportedV tag => tag
/-- Elements of a list value under `repr`. -/
def pyReprArr : PyArr → List String
  | .nil => []
  | .cons v rest => pyReprVal v :: pyReprArr rest
/-- Entries of a dict value under `repr`. -/
def pyReprObj : PyObj → List String
  | .nil => []
  | .cons k v rest => ("'" ++ k ++ "': " ++ pyReprVal v) :: pyReprObj rest
end

/-- Python `str` of a value (what `str.format` interpolates): like `repr`
except that strings appear without quotes. -/
def pyStr : PyVal → String
  | .strV s => s
  | v => pyReprVal v

/-- Key lookup in a dict value. -/
def PyObj.lookup : PyObj → String → Option PyVal
  | .nil, _ => none
  | .cons k v rest, key => if k = key then some v else PyObj.lookup rest key

/-! ## Association-list model of Python dictionaries

The exporter keeps per-destination state in `dict`s.  They are modelled
as association lists in insertion order: lookup finds the first matching
key, assignment replaces the first matching entry in place or appends a
new entry at the end, `pop` removes the first matching entry.  States
reachable from an empty exporter never hold a duplicated key. -/

/-- Dictionary lookup (`d.get(k)` / `d[k]`). -/
def lookupA {β : Type} : List (String × β) → String → Option β
  | [], _ => none
  | (k', v) :: rest, k => if k' = k then some v else lookupA rest k

/-- Dictionary assignment (`d[k] = v`). -/
def setA {β : Type} : List (String × β) → String → β → List (String × β)
  | [], k, v => [(k, v)]
  | (k', v') :: rest, k, v =>
    if k' = k then (k', v) :: rest else (k', v') :: setA rest k v

/-- Dictionary removal (`d.pop(k)`). -/
def eraseA {β : Type} : List (String × β) → String → List (String × β)
  | [], _ => []
  | (k', v') :: rest, k => if k' = k then rest else (k', v') :: eraseA rest k

/-- Keys of a dictionary in insertion order (`list(d)`). -/
def keysA {β : Type} (l : List (String × β)) : List String := l.map (·.1)

/-! ## Exporter state -/

/-- One piece of a path template such as `"{something}_{item[myfield]}"`:
literal text, a `{name}` placeholder filled from the extra routing
parameters, or an `{item[key]}` placeholder filled from the record. -/
inductive TemplatePart where
  | lit (s : String)
  | param (name : String)
  | itemField (key : String)

/-- Model of `str.format` over a parsed template: missing placeholder
sources raise (`KeyError`), matching the fail-fast behavior of
`str.format`. -/
def formatTemplate : List TemplatePart → List (String × String) → PyObj →
    Except ExpErr String
  | [], _, _ => .ok ""
  | p :: rest, params, item =>
    let piece : Except ExpErr String :=
      match p with
      | .lit s => .ok s
      | .param n =>
        match lookupA params n with
        | some v => .ok v
        | none => .error .formatKeyError
      | .itemField k =>
        match item.lookup k with
        | some v => .ok (pyStr v)
        | none => .error .formatKeyError
    match piece with
    | .error er => .error er
    | .ok s =>
      match formatTemplate rest params item with
      | .error er => .error er
      | .ok s' => .ok (s ++ s')

/-- The three trigger events of the exporter
(`ExporterEvent = Literal["finish", "flush", "never"]`). -/
inductive ExporterEvent where
  | finish
  | flush
  | never
deriving DecidableEq, Repr

/-- The configuration handed to the exporter's constructor, restricted to
what the engine reads.  `putName` is the connector boundary: the filename
the warehouse reports back for an uploaded file (the code always trusts
it over the requested name, e.g. when a compression suffix is added). -/
structure Config where
  table_path : List TemplatePart
  stage_path : List TemplatePart
  instance_ms : Nat
  max_file_size : Nat
  ignore_unexpected_fields : Bool
  allow_varying_value_types : Bool
  create_tables_on : ExporterEvent
  populate_tables_on : ExporterEvent
  clear_stage_on : ExporterEvent
  putName : String → String

/-- Observation of one buffer flush: the destination, the 1-based batch
number used in the staged path, and the bytes uploaded.  This is the
argument list of the `PUT` call, recorded so that theorems can speak
about the files produced. -/
structure FlushEvent where
  dest : String
  batchN : Nat
  content : List Nat
deriving DecidableEq, Repr

/-- The exporter's mutable state.  `table_buffers` holds each open
buffer's written bytes (the temporary file), `exported_fpaths` the staged
file references per destination, `recorded_coltypes` the per-destination
field-type record, and `predefined_column_types` the caller-supplied
column overrides (mutable state because `get_column_types` writes through
an alias into it).  `flushLog` and `appendLog` are observation logs of
the upload calls and of the buffer writes; no code path reads them. -/
structure Exporter where
  cfg : Config
  table_buffers : List (String × List Nat)
  exported_fpaths : List (String × List String)
  recorded_coltypes : List (String × List (String × List String))
  predefined_column_types : List (String × List (String × String))
  flushLog : List FlushEvent
  appendLog : List (String × List Nat)

/-- A fresh exporter (end of `__init__`): empty buffers, no staged files,
no recorded types, and the caller's predefined column types. -/
def initExporter (cfg : Config) (predef : List (String × List (String × String))) :
    Exporter :=
  ⟨cfg, [], [], [], predef, [], []⟩

/-! ## Exporter operations -/

/-- The exporter's `typemap`, keyed by the runtime class of a value.
`nullV` is filtered out by the `is not None` guard before the lookup ever
happens, and `unsupportedV` would be a `KeyError` — unreachable from
`export_item` because `json.dumps` has already raised for such a value. -/
def typemap : PyVal → Option String
  | .dictV _ => some "OBJECT"
  | .listV _ => some "ARRAY"
  | .intV _ => some "NUMBER"
  | .floatV _ => some "NUMBER"
  | .boolV _ => some "BOOLEAN"
  | .strV _ => some "VARCHAR"
  | .nullV => none
  | .unsupportedV _ => none

/-- Add a resolved type to a field's set of observed types
(`set.add`). -/
def addType (tys : List String) (ty : String) : List String :=
  if ty ∈ tys then tys else tys ++ [ty]

/-- Record one field's type (`recorded.setdefault(k, set()).add(...)`
guarded by `if v is not None`). -/
def recordOne (recorded : List (String × List String)) (k : String) (v : PyVal) :
    List (String × List String) :=
  match typemap v with
  | some ty => setA recorded k (addType ((lookupA recorded k).getD []) ty)
  | none => recorded

/-- Record the types of every non-null field of a record, in field
order. -/
def recordObj (recorded : List (String × List String)) : PyObj →
    List (String × List String)
  | .nil => recorded
  | .cons k v rest => recordObj (recordOne recorded k v) rest

/-- `record_field_types`: fold the record's field types into the
destination's entry of the column-type record. -/
def record_field_types (e : Exporter) (t : String) (item : PyObj) : Exporter :=
  let recorded := (lookupA e.recorded_coltypes t).getD []
  { e with recorded_coltypes := setA e.recorded_coltypes t (recordObj recorded item) }

/-- `table_for_item`: destination key by template substitution. -/
def table_for_item (e : Exporter) (params : List (String × String)) (item : PyObj) :
    Except ExpErr String :=
  formatTemplate e.cfg.table_path params item

/-- `fpath_for_table`: staged-file path by template substitution. -/
def fpath_for_table (e : Exporter) (t : String) (batchN : Nat) : Except ExpErr String :=
  formatTemplate e.cfg.stage_path
    [("table_path", t), ("instance_ms", toString e.cfg.instance_ms),
     ("batch_n", toString batchN)] .nil

/-- `_should_flush_buffer_for`: the open buffer's written byte count has
reached the threshold.  Only called while the buffer exists. -/
def should_flush_buffer_for (e : Exporter) (t : String) : Bool :=
  e.cfg.max_file_size ≤ ((lookupA e.table_buffers t).getD []).length

/-- The loop body of `get_column_types`: fold the recorded column types
into `columns`, skipping fields already present, taking the single
observed type when there is exactly one, and the catch-all `VARIANT` or
nothing for several observed types depending on
`allow_varying_value_types`. -/
def resolveFromRecorded (allow : Bool) (columns : List (String × String)) :
    List (String × List String) → List (String × String)
  | [] => columns
  | (colname, coltypes) :: rest =>
    let columns' :=
      if (lookupA columns colname).isSome then columns
      else
        match coltypes with
        | [ty] => columns ++ [(colname, ty)]
        | _ => if allow then columns ++ [(colname, "VARIANT")] else columns
    resolveFromRecorded allow columns' rest

/-- `get_column_types`.  In the source, `columns` starts as
`self._predefined_column_types.get(table_path, {})`, which *aliases* the
stored dict whenever the destination has an entry; the loop's insertions
then land in the exporter's own `_predefined_column_types`.  The returned
state makes that aliasing explicit. -/
def get_column_types (e : Exporter) (t : String) :
    Except ExpErr (List (String × String)) × Exporter :=
  let preOpt := lookupA e.predefined_column_types t
  let columns := preOpt.getD []
  if columns ≠ [] ∧ e.cfg.ignore_unexpected_fields then (.ok columns, e)
  else
    let recorded := (lookupA e.recorded_coltypes t).getD []
    let result := resolveFromRecorded e.cfg.allow_varying_value_types columns recorded
    if result = [] then (.error .noValidColumns, e)
    else
      match preOpt with
      | some _ =>
        (.ok result,
         { e with predefined_column_types := setA e.predefined_column_types t result })
      | none => (.ok result, e)

/-- `create_table`: resolves the column set and emits `CREATE TABLE IF
NOT EXISTS` to the connector (the statement itself is outside the model;
the state effect and the possible failure are kept). -/
def create_table (e : Exporter) (t : String) : Except ExpErr Unit × Exporter :=
  match get_column_types e t with
  | (.ok _, e₁) => (.ok (), e₁)
  | (.error er, e₁) => (.error er, e₁)

/-- `populate_table`: subscripts `self._exported_fpaths[table_path]`
(raising `KeyError` when absent), resolves the column set, and emits the
chunked `COPY INTO` statements to the connector. -/
def populate_table (e : Exporter) (t : String) : Except ExpErr Unit × Exporter :=
  match lookupA e.exported_fpaths t with
  | none => (.error .keyError, e)
  | some _ =>
    match get_column_types e t with
    | (.ok _, e₁) => (.ok (), e₁)
    | (.error er, e₁) => (.error er, e₁)

/-- `clear_stage`: emits `REMOVE` statements to the connector; no
exporter state is touched. -/
def clear_stage (e : Exporter) (_fpaths : List String) : Exporter := e

/-- Split a string at its last `/`, as `fpath.rsplit("/", 1)` does; `none`
when there is no separator (where the Python unpacking raises
`ValueError`). -/
def lastSplit : List Char → Option (List Char × List Char)
  | [] => none
  | c :: rest =>
    match lastSplit rest with
    | some (a, b) => some (c :: a, b)
    | none => if c = '/' then some ([], rest) else none

/-- `flush_table_buffer`, in source order: subscript the buffer (KeyError
when it is gone), `setdefault` the staged-file list and compute the next
batch number, format the staged path, split it into prefix and filename,
upload (the `PUT` call, logged as a `FlushEvent`; the stored reference
uses the connector-returned name), close and drop the buffer, append the
reference, then fire the three on-flush triggers in order. -/
def flush_table_buffer (e : Exporter) (t : String) : Exporter × Option ExpErr :=
  match lookupA e.table_buffers t with
  | none => (e, some .keyError)
  | some buf =>
    let batchN := ((lookupA e.exported_fpaths t).getD []).length + 1
    let e₀ := if (lookupA e.exported_fpaths t).isSome then e
              else { e with exported_fpaths := e.exported_fpaths ++ [(t, [])] }
    match fpath_for_table e t batchN with
    | .error er => (e₀, some er)
    | .ok fpath =>
      match lastSplit fpath.data with
      | none => (e₀, some .valueError)
      | some (dirPart, fname) =>
        let ref := String.mk dirPart ++ "/" ++ e.cfg.putName (String.mk fname)
        let e₁ := { e₀ with
          table_buffers := eraseA e₀.table_buffers t,
          exported_fpaths :=
            setA e₀.exported_fpaths t (((lookupA e₀.exported_fpaths t).getD []) ++ [ref]),
          flushLog := e₀.flushLog ++ [⟨t, batchN, buf⟩] }
        match (if e.cfg.create_tables_on = .flush then create_table e₁ t
               else (.ok (), e₁)) with
        | (.error er, e₂) => (e₂, some er)
        | (.ok _, e₂) =>
          match (if e.cfg.populate_tables_on = .flush then populate_table e₂ t
                 else (.ok (), e₂)) with
          | (.error er, e₃) => (e₃, some er)
          | (.ok _, e₃) =>
            (if e.cfg.clear_stage_on = .flush then clear_stage e₃ [ref] else e₃, none)

/-- `export_item`, in source order: route via the destination template,
lazily create the buffer, serialize the record to one line and append its
UTF-8 bytes (logged in `appendLog`), flush if the threshold has been
reached, and finally record the record's field types. -/
def export_item (e : Exporter) (item : PyObj) (params : List (String × String)) :
    Exporter × Except ExpErr String :=
  match table_for_item e params item with
  | .error er => (e, .error er)
  | .ok t =>
    let e₁ := if (lookupA e.table_buffers t).isSome then e
              else { e with table_buffers := e.table_buffers ++ [(t, [])] }
    match dumpsVal (.dictV item) with
    | .error er => (e₁, .error er)
    | .ok s =>
      let line := utf8Bytes (s ++ "\n")
      let e₂ := { e₁ with
        table_buffers :=
          setA e₁.table_buffers t (((lookupA e₁.table_buffers t).getD []) ++ line),
        appendLog := e₁.appendLog ++ [(t, line)] }
      if should_flush_buffer_for e₂ t then
        match flush_table_buffer e₂ t with
        | (e₃, some er) => (e₃, .error er)
        | (e₃, none) => (record_field_types e₃ t item, .ok t)
      else (record_field_types e₂ t item, .ok t)

/-- The loop of `flush_all_table_buffers` over a snapshot of the open
buffer keys; an exception aborts the loop. -/
def flushKeys : Exporter → List String → Exporter × Option ExpErr
  | e, [] => (e, none)
  | e, t :: ts =>
    match flush_table_buffer e t with
    | (e', none) => flushKeys e' ts
    | (e', some er) => (e', some er)

/-- `flush_all_table_buffers`: flush every destination with an open
buffer, iterating over a snapshot of the keys. -/
def flush_all_table_buffers (e : Exporter) : Exporter × Option ExpErr :=
  flushKeys e (keysA e.table_buffers)

/-- Fold a per-table action over a list of destinations, aborting on the
first exception (the loops of `create_all_tables` and
`populate_all_tables`). -/
def runTables (f : Exporter → String → Except ExpErr Unit × Exporter) :
    Exporter → List String → Exporter × Option ExpErr
  | e, [] => (e, none)
  | e, t :: ts =>
    match f e t with
    | (.ok _, e') => runTables f e' ts
    | (.error er, e') => (e', some er)

/-- `create_all_tables`. -/
def create_all_tables (e : Exporter) : Exporter × Option ExpErr :=
  runTables create_table e (keysA e.exported_fpaths)

/-- `populate_all_tables`. -/
def populate_all_tables (e : Exporter) : Exporter × Option ExpErr :=
  runTables populate_table e (keysA e.exported_fpaths)

/-- `finish_export`: flush all buffers, then fire the three on-finish
triggers. -/
def finish_export (e : Exporter) : Exporter × Option ExpErr :=
  match flush_all_table_buffers e with
  | (e₁, some er) => (e₁, some er)
  | (e₁, none) =>
    match (if e₁.cfg.create_tables_on = .finish then create_all_tables e₁
           else (e₁, none)) with
    | (e₂, some er) => (e₂, some er)
    | (e₂, none) =>
      match (if e₂.cfg.populate_tables_on = .finish then populate_all_tables e₂
             else (e₂, none)) with
      | (e₃, some er) => (e₃, some er)
      | (e₃, none) =>
        (if e₃.cfg.clear_stage_on = .finish then clear_stage e₃ [] else e₃, none)

/-! ## Traces -/

/-- One operation a caller can perform against a running exporter: an
ingestion, an explicit flush of one destination, or a `flush_all`
pass. -/
inductive Op where
  | exportOp (item : PyObj) (params : List (String × String))
  | flushOp (t : String)
  | flushAllOp

/-- One step of a trace. -/
def stepOp (e : Exporter) : Op → Exporter × Option ExpErr
  | .exportOp item params =>
    match export_item e item params with
    | (e', .ok _) => (e', none)
    | (e', .error er) => (e', some er)
  | .flushOp t => flush_table_buffer e t
  | .flushAllOp => flush_all_table_buffers e

/-- Run a trace of operations, collecting the exceptions raised along the
way (an empty list means every operation succeeded). -/
def runOps : Exporter → List Op → Exporter × List ExpErr
  | e, [] => (e, [])
  | e, op :: ops =>
    match stepOp e op with
    | (e₁, none) => runOps e₁ ops
    | (e₁, some er) =>
      match runOps e₁ ops with
      | (e₂, ers) => (e₂, er :: ers)

/-! ## Observations -/

/-- The files flushed for a destination, in flush order. -/
def flushedFor (e : Exporter) (t : String) : List FlushEvent :=
  e.flushLog.filter (fun f => f.dest == t)

/-- Concatenated bytes of all files flushed for a destination. -/
def flushedBytes (e : Exporter) (t : String) : List Nat :=
  ((flushedFor e t).map (·.content)).flatten

/-- Bytes currently sitting in a destination's open buffer (empty when
there is none). -/
def bufferBytes (e : Exporter) (t : String) : List Nat :=
  ((lookupA e.table_buffers t).getD [])

/-- The serialized lines appended for a destination, in arrival order. -/
def appendedFor (e : Exporter) (t : String) : List (List Nat) :=
  (e.appendLog.filter (fun p => p.1 == t)).map (·.2)

/-- The batch numbers used by the flushes of a destination, in flush
order. -/
def batchNums (e : Exporter) (t : String) : List Nat :=
  (flushedFor e t).map (·.batchN)

/-- The default staged-path template
`"{table_path}/{instance_ms}_{batch_n}.jl"`. -/
def defaultStagePath : List TemplatePart :=
  [.param "table_path", .lit "/", .param "instance_ms", .lit "_",
   .param "batch_n", .lit ".jl"]

/-- The configuration of the repository's `make_test_exporter` with the
routing template `"{something}_{item[myfield]}"`. -/
def testCfg : Config :=
  ⟨[.param "something", .lit "_", .itemField "myfield"], defaultStagePath,
   0, 1073741824, true, false, .finish, .finish, .never, id⟩

/-- The first step of the repository's `test_basic_flow`: the record
`{"myfield": 1}` with `something="foo"` routes to `"foo_1"` and buffers
exactly its serialized line. -/
theorem export_item_basic_flow :
    (export_item (initExporter testCfg []) (.cons "myfield" (.intV 1) .nil)
        [("something", "foo")]).2 = .ok "foo_1" ∧
    bufferBytes (export_item (initExporter testCfg [])
        (.cons "myfield" (.intV 1) .nil) [("something", "foo")]).1 "foo_1" =
      utf8Bytes "\x7b\"myfield\": 1\x7d\n" ∧
    (export_item (initExporter testCfg []) (.cons "myfield" (.intV 1) .nil)
        [("something", "foo")]).1.recorded_coltypes =
      [("foo_1", [("myfield", ["NUMBER"])])] := by
  decide

/-! ## Dictionary lemmas -/

theorem lookupA_setA_self {β : Type} (l : List (String × β)) (k : String) (v : β) :
    lookupA (setA l k v) k = some v := by
  induction l with
  | nil => simp [setA, lookupA]
  | cons p rest ih =>
    obtain ⟨k', v'⟩ := p
    by_cases h : k' = k <;> simp [setA, lookupA, h, ih]

theorem lookupA_setA_ne {β : Type} (l : List (String × β)) (k u : String) (v : β)
    (h : u ≠ k) : lookupA (setA l k v) u = lookupA l u := by
  induction l with
  | nil => simp [setA, lookupA, Ne.symm h]
  | cons p rest ih =>
    obtain ⟨k', v'⟩ := p
    by_cases h1 : k' = k
    · subst h1
      simp [setA, lookupA, Ne.symm h]
    · simp [setA, lookupA, h1, ih]

theorem lookupA_append_ne {β : Type} (l : List (String × β)) (t u : String) (v : β)
    (h : u ≠ t) : lookupA (l ++ [(t, v)]) u = lookupA l u := by
  induction l with
  | nil => simp [lookupA, Ne.symm h]
  | cons p rest ih =>
    obtain ⟨k', v'⟩ := p
    by_cases h2 : k' = u <;> simp [lookupA, h2, ih]

theorem lookupA_append_new {β : Type} (l : List (String × β)) (t : String) (v : β)
    (h : lookupA l t = none) : lookupA (l ++ [(t, v)]) t = some v := by
  induction l with
  | nil => simp [lookupA]
  | cons p rest ih =>
    obtain ⟨k', v'⟩ := p
    by_cases h2 : k' = t
    · simp [lookupA, h2] at h
    · simp [lookupA, h2] at h ⊢
      exact ih h

theorem lookupA_none_not_mem {β : Type} (l : List (String × β)) (k : String)
    (h : lookupA l k = none) : k ∉ keysA l := by
  induction l with
  | nil => simp [keysA]
  | cons p rest ih =>
    obtain ⟨k', v'⟩ := p
    by_cases h2 : k' = k
    · simp [lookupA, h2] at h
    · simp [lookupA, h2] at h
      simp [keysA]
      push_neg
      exact ⟨fun hh => h2 hh.symm, by simpa [keysA] using ih h⟩

theorem lookupA_isSome_mem {β : Type} (l : List (String × β)) (k : String)
    (h : (lookupA l k).isSome) : k ∈ keysA l := by
  induction l with
  | nil => simp [lookupA] at h
  | cons p rest ih =>
    obtain ⟨k', v'⟩ := p
    by_cases h2 : k' = k
    · simp [keysA, h2]
    · simp [lookupA, h2] at h
      simp [keysA]
      exact Or.inr (by simpa [keysA] using ih h)

theorem lookupA_eraseA_self {β : Type} (l : List (String × β)) (k : String)
    (h : (keysA l).Nodup) : lookupA (eraseA l k) k = none := by
  induction l with
  | nil => simp [eraseA, lookupA]
  | cons p rest ih =>
    obtain ⟨k', v'⟩ := p
    have hnd : k' ∉ keysA rest ∧ (keysA rest).Nodup := by
      simpa [keysA] using h
    by_cases h2 : k' = k
    · subst h2
      have he : eraseA ((k', v') :: rest) k' = rest := by simp [eraseA]
      rw [he]
      cases hrest : lookupA rest k' with
      | none => rfl
      | some w =>
        exact absurd (lookupA_isSome_mem rest k' (by simp [hrest])) hnd.1
    · simp [eraseA, lookupA, h2]
      exact ih hnd.2

theorem lookupA_eraseA_ne {β : Type} (l : List (String × β)) (k u : String)
    (h : u ≠ k) : lookupA (eraseA l k) u = lookupA l u := by
  induction l with
  | nil => simp [eraseA, lookupA]
  | cons p rest ih =>
    obtain ⟨k', v'⟩ := p
    by_cases h2 : k' = k
    · subst h2
      simp [eraseA, lookupA, Ne.symm h]
    · simp [eraseA, lookupA, h2, ih]

theorem keysA_setA_present {β : Type} (l : List (String × β)) (k : String) (v : β)
    (h : (lookupA l k).isSome) : keysA (setA l k v) = keysA l := by
  induction l with
  | nil => simp [lookupA] at h
  | cons p rest ih =>
    obtain ⟨k', v'⟩ := p
    by_cases h2 : k' = k
    · simp [setA, keysA, h2]
    · simp [lookupA, h2] at h
      simp only [setA, if_neg h2]
      simp [keysA] at ih ⊢
      exact ih h

theorem keysA_setA_absent {β : Type} (l : List (String × β)) (k : String) (v : β)
    (h : lookupA l k = none) : keysA (setA l k v) = keysA l ++ [k] := by
  induction l with
  | nil => simp [setA, keysA]
  | cons p rest ih =>
    obtain ⟨k', v'⟩ := p
    by_cases h2 : k' = k
    · simp [lookupA, h2] at h
    · simp [lookupA, h2] at h
      simp only [setA, if_neg h2]
      simp [keysA] at ih ⊢
      exact ih h

theorem keysA_eraseA_sublist {β : Type} (l : List (String × β)) (k : String) :
    List.Sublist (keysA (eraseA l k)) (keysA l) := by
  induction l with
  | nil => simp [eraseA, keysA]
  | cons p rest ih =>
    obtain ⟨k', v'⟩ := p
    by_cases h2 : k' = k
    · subst h2
      simp only [eraseA, if_pos rfl]
      have : keysA ((k', v') :: rest) = k' :: keysA rest := rfl
      rw [this]
      exact List.sublist_cons_self _ _
    · simp only [eraseA, if_neg h2]
      have h3 : keysA ((k', v') :: eraseA rest k) = k' :: keysA (eraseA rest k) := rfl
      have h4 : keysA ((k', v') :: rest) = k' :: keysA rest := rfl
      rw [h3, h4]
      exact List.Sublist.cons₂ _ ih

/-! ## Frame lemmas: which state the operations can touch -/

/-- `get_column_types` can change the exporter only through the aliased
predefined column mapping. -/
theorem get_column_types_shape (e : Exporter) (t : String) :
    ∃ p, (get_column_types e t).2 = { e with predefined_column_types := p } := by
  simp only [get_column_types]
  split
  · exact ⟨e.predefined_column_types, rfl⟩
  · split
    · exact ⟨e.predefined_column_types, rfl⟩
    · split
      · exact ⟨_, rfl⟩
      · exact ⟨e.predefined_column_types, rfl⟩

/-- `create_table` can change the exporter only through the predefined
column mapping. -/
theorem create_table_shape (e : Exporter) (t : String) :
    ∃ p, (create_table e t).2 = { e with predefined_column_types := p } := by
  obtain ⟨p, hp⟩ := get_column_types_shape e t
  refine ⟨p, ?_⟩
  unfold create_table
  rcases hgc : get_column_types e t with ⟨r, e₁⟩
  rw [hgc] at hp
  cases r <;> simpa using hp

/-- `populate_table` can change the exporter only through the predefined
column mapping. -/
theorem populate_table_shape (e : Exporter) (t : String) :
    ∃ p, (populate_table e t).2 = { e with predefined_column_types := p } := by
  unfold populate_table
  cases hl : lookupA e.exported_fpaths t with
  | none => exact ⟨e.predefined_column_types, rfl⟩
  | some fps =>
    obtain ⟨p, hp⟩ := get_column_types_shape e t
    refine ⟨p, ?_⟩
    rcases hgc : get_column_types e t with ⟨r, e₁⟩
    rw [hgc] at hp
    cases r <;> simpa using hp

/-- The state after a conditionally fired on-flush action differs from
its input at most in the predefined column mapping. -/
theorem ite_action_snd_shape (c : Prop) [Decidable c]
    (f : Exporter → String → Except ExpErr Unit × Exporter)
    (hf : ∀ e t, ∃ p, (f e t).2 = { e with predefined_column_types := p })
    (e : Exporter) (t : String) (r : Except ExpErr Unit) (e' : Exporter)
    (h : (if c then f e t else (Except.ok (), e)) = (r, e')) :
    ∃ p, e' = { e with predefined_column_types := p } := by
  split at h
  · obtain ⟨p, hp⟩ := hf e t
    rw [h] at hp
    exact ⟨p, hp⟩
  · injection h with h1 h2
    subst h2
    exact ⟨e.predefined_column_types, rfl⟩

/-- `flush_table_buffer` can change the exporter only through the
buffers, the staged-file lists, the flush log and the (aliased)
predefined column mapping. -/
theorem flush_table_buffer_shape (e : Exporter) (t : String) :
    ∃ tb fp fl p, (flush_table_buffer e t).1 =
      { e with table_buffers := tb, exported_fpaths := fp, flushLog := fl,
               predefined_column_types := p } := by
  simp only [flush_table_buffer]
  by_cases hfp : (lookupA e.exported_fpaths t).isSome = true
  all_goals
    first
      | rw [if_pos hfp]
      | rw [if_neg hfp]
  all_goals
    split
    · exact ⟨_, _, _, _, rfl⟩
    · split
      · exact ⟨_, _, _, _, rfl⟩
      · split
        · exact ⟨_, _, _, _, rfl⟩
        · split
          · rename_i er e₂ heq
            obtain ⟨p₂, hp₂⟩ :=
              ite_action_snd_shape _ create_table create_table_shape _ t _ _ heq
            exact ⟨_, _, _, _, hp₂⟩
          · rename_i u₂ e₂ heq
            obtain ⟨p₂, hp₂⟩ :=
              ite_action_snd_shape _ create_table create_table_shape _ t _ _ heq
            split
            · rename_i er e₃ heq₃
              obtain ⟨p₃, hp₃⟩ :=
                ite_action_snd_shape _ populate_table populate_table_shape _ t _ _ heq₃
              rw [hp₂] at hp₃
              exact ⟨_, _, _, _, hp₃⟩
            · rename_i u₃ e₃ heq₃
              obtain ⟨p₃, hp₃⟩ :=
                ite_action_snd_shape _ populate_table populate_table_shape _ t _ _ heq₃
              rw [hp₂] at hp₃
              split
              · simp only [clear_stage]
                exact ⟨_, _, _, _, hp₃⟩
              · exact ⟨_, _, _, _, hp₃⟩

/-- Flushing never touches the column-type record. -/
theorem flush_table_buffer_recorded_eq (e : Exporter) (t : String) (e' : Exporter)
    (r : Option ExpErr) (h : flush_table_buffer e t = (e', r)) :
    e'.recorded_coltypes = e.recorded_coltypes := by
  obtain ⟨tb, fp, fl, p, hs⟩ := flush_table_buffer_shape e t
  rw [h] at hs
  simpa using congrArg Exporter.recorded_coltypes hs

/-- Flushing never touches the append log. -/
theorem flush_table_buffer_appendLog_eq (e : Exporter) (t : String) (e' : Exporter)
    (r : Option ExpErr) (h : flush_table_buffer e t = (e', r)) :
    e'.appendLog = e.appendLog := by
  obtain ⟨tb, fp, fl, p, hs⟩ := flush_table_buffer_shape e t
  rw [h] at hs
  simpa using congrArg Exporter.appendLog hs

/-- Flushing never touches the configuration. -/
theorem flush_table_buffer_cfg_eq (e : Exporter) (t : String) (e' : Exporter)
    (r : Option ExpErr) (h : flush_table_buffer e t = (e', r)) :
    e'.cfg = e.cfg := by
  obtain ⟨tb, fp, fl, p, hs⟩ := flush_table_buffer_shape e t
  rw [h] at hs
  simpa using congrArg Exporter.cfg hs

/-! ## Unsupported values make serialization fail -/

/-- A value of a kind outside `None`/`bool`/`int`/`float`/`str`/`list`/
`dict`. -/
def isUnsupportedKind : PyVal → Bool
  | .unsupportedV _ => true
  | _ => false

/-- Some top-level field value of the record is of an unsupported kind. -/
def objHasUnsupported : PyObj → Bool
  | .nil => false
  | .cons _ v rest => isUnsupportedKind v || objHasUnsupported rest

mutual
/-- The only exception `json.dumps` raises in the model is the
`TypeError` for an unsupported value. -/
theorem dumpsVal_error_eq : ∀ (v : PyVal) (er : ExpErr),
    dumpsVal v = .error er → er = .serTypeError
  | .nullV, er, h => by simp [dumpsVal] at h
  | .boolV b, er, h => by cases b <;> simp [dumpsVal] at h
  | .intV n, er, h => by simp [dumpsVal] at h
  | .floatV l, er, h => by simp [dumpsVal] at h
  | .strV s, er, h => by simp [dumpsVal] at h
  | .listV xs, er, h => by
    cases ha : dumpsArrParts xs with
    | error er' =>
      have h1 : er' = er := by
        simp [dumpsVal, ha] at h
        exact h
      exact h1 ▸ dumpsArrParts_error_eq xs er' ha
    | ok parts => simp [dumpsVal, ha] at h
  | .dictV xs, er, h => by
    cases ha : dumpsObjParts xs with
    | error er' =>
      have h1 : er' = er := by
        simp [dumpsVal, ha] at h
        exact h
      exact h1 ▸ dumpsObjParts_error_eq xs er' ha
    | ok parts => simp [dumpsVal, ha] at h
  | .unsupportedV tag, er, h => by
    simp [dumpsVal] at h
    exact h.symm
/-- Serializing list elements only ever fails with the `TypeError`. -/
theorem dumpsArrParts_error_eq : ∀ (xs : PyArr) (er : ExpErr),
    dumpsArrParts xs = .error er → er = .serTypeError
  | .nil, er, h => by simp [dumpsArrParts] at h
  | .cons v rest, er, h => by
    cases hv : dumpsVal v with
    | error er' =>
      have h1 : er' = er := by
        simp [dumpsArrParts, hv] at h
        exact h
      exact h1 ▸ dumpsVal_error_eq v er' hv
    | ok s =>
      cases hr : dumpsArrParts rest with
      | error er' =>
        have h1 : er' = er := by
          simp [dumpsArrParts, hv, hr] at h
          exact h
        exact h1 ▸ dumpsArrParts_error_eq rest er' hr
      | ok tl => simp [dumpsArrParts, hv, hr] at h
/-- Serializing dict entries only ever fails with the `TypeError`. -/
theorem dumpsObjParts_error_eq : ∀ (xs : PyObj) (er : ExpErr),
    dumpsObjParts xs = .error er → er = .serTypeError
  | .nil, er, h => by simp [dumpsObjParts] at h
  | .cons k v rest, er, h => by
    cases hv : dumpsVal v with
    | error er' =>
      have h1 : er' = er := by
        simp [dumpsObjParts, hv] at h
        exact h
      exact h1 ▸ dumpsVal_error_eq v er' hv
    | ok s =>
      cases hr : dumpsObjParts rest with
      | error er' =>
        have h1 : er' = er := by
          simp [dumpsObjParts, hv, hr] at h
          exact h
        exact h1 ▸ dumpsObjParts_error_eq rest er' hr
      | ok tl => simp [dumpsObjParts, hv, hr] at h
end

/-- A record with an unsupported top-level field value fails to
serialize. -/
theorem dumpsObjParts_error_of_unsupported : ∀ (item : PyObj),
    objHasUnsupported item = true → ∃ er, dumpsObjParts item = .error er
  | .nil, h => by simp [objHasUnsupported] at h
  | .cons k v rest, h => by
    cases hv : dumpsVal v with
    | error er' => exact ⟨er', by simp [dumpsObjParts, hv]⟩
    | ok s =>
      have hnv : isUnsupportedKind v = false := by
        cases v <;> simp [isUnsupportedKind]
        simp [dumpsVal] at hv
      have hrest : objHasUnsupported rest = true := by
        simpa [objHasUnsupported, hnv] using h
      obtain ⟨er, he⟩ := dumpsObjParts_error_of_unsupported rest hrest
      exact ⟨er, by simp [dumpsObjParts, hv, he]⟩

/-- `json.dumps` on a record with an unsupported top-level field value
raises the `TypeError`. -/
theorem dumpsVal_dict_unsupported (item : PyObj)
    (h : objHasUnsupported item = true) :
    dumpsVal (.dictV item) = .error .serTypeError := by
  obtain ⟨er, he⟩ := dumpsObjParts_error_of_unsupported item h
  have := dumpsObjParts_error_eq item er he
  subst this
  simp [dumpsVal, he]

/-! ## Concrete configurations used by witnesses and counterexamples -/

/-- A configuration with the constant routing template `"t"` and
otherwise the defaults of the exporter's constructor. -/
def constCfg : Config :=
  ⟨[.lit "t"], defaultStagePath, 0, 1073741824, true, false, .finish, .finish,
   .never, id⟩

/-- Like `constCfg` but with a 1-byte flush threshold and table creation
on flush. -/
def onFlushCfg : Config :=
  ⟨[.lit "t"], defaultStagePath, 0, 1, true, false, .flush, .finish, .never, id⟩

/-! ## Claim C4 — unsupported field values fail fast without corrupting
buffered data -/

/-- C4: a record containing a field value of an unsupported kind makes
`export_item` fail with the serialization `TypeError` at ingestion time,
and the failure leaves the flushed files, the append history, every
destination's buffered bytes, the staged-file lists and the column-type
record exactly as they were (the only state change is that an empty
buffer may have been created for the routed destination). -/
theorem export_item_unsupported_value_fails (e : Exporter) (item : PyObj)
    (params : List (String × String)) (t : String)
    (h₁ : objHasUnsupported item = true)
    (h₂ : table_for_item e params item = .ok t) :
    (export_item e item params).2 = .error .serTypeError ∧
    ((export_item e item params).1).flushLog = e.flushLog ∧
    ((export_item e item params).1).appendLog = e.appendLog ∧
    ((export_item e item params).1).recorded_coltypes = e.recorded_coltypes ∧
    ((export_item e item params).1).exported_fpaths = e.exported_fpaths ∧
    (∀ u, bufferBytes (export_item e item params).1 u = bufferBytes e u) := by
  have hd : dumpsVal (.dictV item) = .error .serTypeError :=
    dumpsVal_dict_unsupported item h₁
  simp only [export_item, h₂, hd]
  by_cases hb : (lookupA e.table_buffers t).isSome = true
  · rw [if_pos hb]
    refine ⟨?_, ?_, ?_, ?_, ?_, fun u => ?_⟩ <;> trivial
  · rw [if_neg hb]
    refine ⟨by trivial, by trivial, by trivial, by trivial, by trivial, ?_⟩
    intro u
    have hnone : lookupA e.table_buffers t = none := by
      cases hcase : lookupA e.table_buffers t with
      | none => rfl
      | some b => rw [hcase] at hb; simp at hb
    by_cases hu : u = t
    · subst hu
      simp [bufferBytes, lookupA_append_new _ _ _ hnone, hnone]
    · simp [bufferBytes, lookupA_append_ne _ _ _ _ hu]

/-- C4 witness at a concrete input: the record `{"a": b"..."}` routed to
the constant destination fails with the serialization error. -/
theorem export_item_unsupported_value_fails_witness :
    objHasUnsupported (.cons "a" (.unsupportedV "bytes") .nil) = true ∧
    table_for_item (initExporter constCfg []) []
      (.cons "a" (.unsupportedV "bytes") .nil) = .ok "t" ∧
    (export_item (initExporter constCfg [])
      (.cons "a" (.unsupportedV "bytes") .nil) []).2 = .error .serTypeError :=
  ⟨by decide, by decide,
   (export_item_unsupported_value_fails (initExporter constCfg [])
     (.cons "a" (.unsupportedV "bytes") .nil) [] "t" (by decide) (by decide)).1⟩

/-! ## Claim C5 — when field types are recorded relative to the flush -/

/-- C5 counterexample: with table creation on flush and a 1-byte
threshold, the very first record triggers a flush, the flush runs while
the column-type record is still empty (it is missing the record's field
`"a"`), and the call therefore fails with the "no valid columns" error;
the record's types are never recorded.  This refutes the claim that
types are recorded before any flush triggered by the same ingestion. -/
theorem flush_before_recording_counterexample :
    (export_item (initExporter onFlushCfg []) (.cons "a" (.intV 1) .nil) []).2 =
      .error .noValidColumns ∧
    ((export_item (initExporter onFlushCfg [])
      (.cons "a" (.intV 1) .nil) []).1).recorded_coltypes = [] ∧
    ((export_item (initExporter onFlushCfg [])
      (.cons "a" (.intV 1) .nil) []).1).flushLog =
      [⟨"t", 1, utf8Bytes "\x7b\"a\": 1\x7d\n"⟩] := by
  decide

/-- C5 amended: `export_item` records the record's field types as its
last step, after any threshold-triggered flush — a successful call leaves
the column-type record updated with exactly the record's non-null field
types, while any failing call (including a failure inside the flush the
record itself triggered) leaves the column-type record unchanged. -/
theorem export_item_records_types_last (e : Exporter) (item : PyObj)
    (params : List (String × String)) :
    ((export_item e item params).1).recorded_coltypes =
      match (export_item e item params).2 with
      | .ok t => setA e.recorded_coltypes t
          (recordObj ((lookupA e.recorded_coltypes t).getD []) item)
      | .error _ => e.recorded_coltypes := by
  simp only [export_item]
  split
  · rfl
  · rename_i t htf
    by_cases hb : (lookupA e.table_buffers t).isSome = true
    all_goals
      first
        | rw [if_pos hb]
        | rw [if_neg hb]
    all_goals
      split
      · rfl
      · rename_i s hd
        split
        · split
          · rename_i e₃ er hflush
            have h3 := flush_table_buffer_recorded_eq _ t _ _ hflush
            exact h3
          · rename_i e₃ hflush
            have h3 := flush_table_buffer_recorded_eq _ t _ _ hflush
            simp [record_field_types, h3]
        · simp [record_field_types]

/-! ## Claim C6 — flushing an empty or released buffer -/

/-- C6 counterexample: flushing a destination with no live buffer raises
(`KeyError`) instead of being a no-op; and a live empty buffer (left
behind by a failed serialization) is uploaded as an empty staged file
whose reference is recorded — not skipped.  Both contradict the claim
that such flushes upload nothing, record nothing and raise no error. -/
theorem flush_empty_buffer_counterexample :
    (flush_table_buffer (initExporter constCfg []) "t").2 = some ExpErr.keyError ∧
    bufferBytes (export_item (initExporter constCfg [])
      (.cons "a" (.unsupportedV "bytes") .nil) []).1 "t" = [] ∧
    (lookupA ((export_item (initExporter constCfg [])
      (.cons "a" (.unsupportedV "bytes") .nil) []).1).table_buffers "t").isSome =
      true ∧
    (flush_table_buffer (export_item (initExporter constCfg [])
      (.cons "a" (.unsupportedV "bytes") .nil) []).1 "t").2 = none ∧
    ((flush_table_buffer (export_item (initExporter constCfg [])
      (.cons "a" (.unsupportedV "bytes") .nil) []).1 "t").1).flushLog =
      [⟨"t", 1, []⟩] ∧
    lookupA ((flush_table_buffer (export_item (initExporter constCfg [])
      (.cons "a" (.unsupportedV "bytes") .nil) []).1 "t").1).exported_fpaths "t" =
      some ["t/0_1.jl"] := by
  decide

/-- C6 amended: flushing a destination whose buffer has been released
(or never created) raises a `KeyError` and leaves the exporter
unchanged, rather than being a silent no-op; already-appended records
are never lost or duplicated by it. -/
theorem flush_released_buffer_raises (e : Exporter) (t : String)
    (h : lookupA e.table_buffers t = none) :
    flush_table_buffer e t = (e, some ExpErr.keyError) := by
  simp only [flush_table_buffer, h]

/-- C6 amended witness: a fresh exporter has no buffer for `"t"`, and
flushing it raises the `KeyError` with the state unchanged. -/
theorem flush_released_buffer_raises_witness :
    lookupA (initExporter constCfg []).table_buffers "t" = none ∧
    flush_table_buffer (initExporter constCfg []) "t" =
      ((initExporter constCfg []), some ExpErr.keyError) :=
  ⟨rfl, flush_released_buffer_raises (initExporter constCfg []) "t" rfl⟩

/-! ## Claim C10 — a routing failure leaves the exporter untouched -/

/-- C10: when formatting the destination-path template fails, the error
propagates before any state mutation — `export_item` returns the
exporter exactly as it was: no buffer created, nothing appended, the
column-type record unchanged. -/
theorem export_item_format_failure_pure (e : Exporter) (item : PyObj)
    (params : List (String × String)) (er : ExpErr)
    (h : table_for_item e params item = .error er) :
    export_item e item params = (e, .error er) := by
  simp only [export_item, h]

/-- C10 witness: the template `"{something}_{item[myfield]}"` with no
`something` routing parameter fails with the `KeyError`, and the state
is returned unchanged. -/
theorem export_item_format_failure_pure_witness :
    table_for_item (initExporter testCfg []) [] (.cons "myfield" (.intV 1) .nil) =
      .error .formatKeyError ∧
    export_item (initExporter testCfg []) (.cons "myfield" (.intV 1) .nil) [] =
      ((initExporter testCfg []), .error .formatKeyError) :=
  ⟨by decide,
   export_item_format_failure_pure (initExporter testCfg [])
     (.cons "myfield" (.intV 1) .nil) [] .formatKeyError (by decide)⟩

/-! ## Claim C2 — `get_column_types` against the specification's
reference definition -/

/-- Modelled from the spec's words for `resolve_columns`: start from the
predefined mapping; when it is non-empty and "ignore unexpected fields"
is enabled, return exactly the predefined set; otherwise, for every
field recorded in the Column Type Record not in the predefined set, take
the single observed type, or the catch-all `VARIANT` when varying value
types are allowed, or drop the field; fail with the "no valid columns"
error exactly when the resulting column set is empty. -/
def resolveColumnsRef (pre : List (String × String))
    (recorded : List (String × List String)) (ignore allow : Bool) :
    Except ExpErr (List (String × String)) :=
  if pre ≠ [] ∧ ignore then .ok pre
  else
    let inferred := (recorded.filter (fun kv => (lookupA pre kv.1).isNone)).filterMap
      (fun kv =>
        match kv.2 with
        | [ty] => some (kv.1, ty)
        | _ => if allow then some (kv.1, "VARIANT") else none)
    let cols := pre ++ inferred
    if cols = [] then .error .noValidColumns else .ok cols

/-- The left-to-right fold of `get_column_types` computes the predefined
columns followed by the filtered inferred columns, as long as the
recorded field names are distinct (which holds in every reachable
state). -/
theorem resolveFromRecorded_eq_filterMap (allow : Bool)
    (recorded : List (String × List String)) :
    ∀ cols : List (String × String),
    ((recorded.map (fun kv => kv.1)).Nodup) →
    resolveFromRecorded allow cols recorded =
      cols ++ (recorded.filter (fun kv => (lookupA cols kv.1).isNone)).filterMap
        (fun kv =>
          match kv.2 with
          | [ty] => some (kv.1, ty)
          | _ => if allow then some (kv.1, "VARIANT") else none) := by
  induction recorded with
  | nil => intro cols h; simp [resolveFromRecorded]
  | cons kv rest ih =>
    intro cols h
    obtain ⟨k, tys⟩ := kv
    simp only [List.map_cons, List.nodup_cons] at h
    have hfc : ∀ d : String × String,
        rest.filter (fun kv => (lookupA (cols ++ [(k, d.2)]) kv.1).isNone) =
        rest.filter (fun kv => (lookupA cols kv.1).isNone) := by
      intro d
      apply List.filter_congr
      intro x hx
      have hxk : x.1 ≠ k := by
        intro hh
        exact h.1 (by simpa [hh] using List.mem_map_of_mem (fun kv => kv.1) hx)
      rw [lookupA_append_ne cols k x.1 d.2 hxk]
    cases hk : lookupA cols k with
    | some v0 =>
      have h1 : resolveFromRecorded allow cols ((k, tys) :: rest) =
          resolveFromRecorded allow cols rest := by
        simp [resolveFromRecorded, hk]
      have h2 : ((k, tys) :: rest).filter (fun kv => (lookupA cols kv.1).isNone) =
          rest.filter (fun kv => (lookupA cols kv.1).isNone) := by
        simp [List.filter_cons, hk]
      rw [h1, h2, ih cols h.2]
    | none =>
      have h2 : ((k, tys) :: rest).filter (fun kv => (lookupA cols kv.1).isNone) =
          (k, tys) :: rest.filter (fun kv => (lookupA cols kv.1).isNone) := by
        simp [List.filter_cons, hk]
      rw [h2]
      rcases tys with _ | ⟨ty, _ | ⟨ty2, tl⟩⟩
      · by_cases ha : allow
        · have h1 : resolveFromRecorded allow cols ((k, ([] : List String)) :: rest) =
              resolveFromRecorded allow (cols ++ [(k, "VARIANT")]) rest := by
            simp [resolveFromRecorded, hk, ha]
          rw [h1, ih _ h.2, hfc ⟨k, "VARIANT"⟩]
          simp [List.filterMap_cons, ha]
        · have h1 : resolveFromRecorded allow cols ((k, ([] : List String)) :: rest) =
              resolveFromRecorded allow cols rest := by
            simp [resolveFromRecorded, hk, ha]
          rw [h1, ih _ h.2]
          simp [ha]
      · have h1 : resolveFromRecorded allow cols ((k, [ty]) :: rest) =
            resolveFromRecorded allow (cols ++ [(k, ty)]) rest := by
          simp [resolveFromRecorded, hk]
        rw [h1, ih _ h.2, hfc ⟨k, ty⟩]
        simp
      · by_cases ha : allow
        · have h1 : resolveFromRecorded allow cols ((k, ty :: ty2 :: tl) :: rest) =
              resolveFromRecorded allow (cols ++ [(k, "VARIANT")]) rest := by
            simp [resolveFromRecorded, hk, ha]
          rw [h1, ih _ h.2, hfc ⟨k, "VARIANT"⟩]
          simp [List.filterMap_cons, ha]
        · have h1 : resolveFromRecorded allow cols ((k, ty :: ty2 :: tl) :: rest) =
              resolveFromRecorded allow cols rest := by
            simp [resolveFromRecorded, hk, ha]
          rw [h1, ih _ h.2]
          simp [ha]

/-- C2: on every state whose recorded field names are distinct (true of
all reachable states), `get_column_types` returns exactly what the
specification's reference definition prescribes, including failing with
the "no valid columns" error precisely when the resulting column set is
empty. -/
theorem get_column_types_matches_reference (e : Exporter) (t : String)
    (h : (((lookupA e.recorded_coltypes t).getD []).map (fun kv => kv.1)).Nodup) :
    (get_column_types e t).1 =
      resolveColumnsRef ((lookupA e.predefined_column_types t).getD [])
        ((lookupA e.recorded_coltypes t).getD [])
        e.cfg.ignore_unexpected_fields e.cfg.allow_varying_value_types := by
  have hres := resolveFromRecorded_eq_filterMap e.cfg.allow_varying_value_types
    ((lookupA e.recorded_coltypes t).getD [])
    ((lookupA e.predefined_column_types t).getD []) h
  simp only [get_column_types, resolveColumnsRef]
  rw [hres]
  cases hpre : lookupA e.predefined_column_types t with
  | none =>
    rw [apply_ite Prod.fst, apply_ite Prod.fst]
  | some pre0 =>
    rw [apply_ite Prod.fst, apply_ite Prod.fst]

/-- A reachable exporter state that has recorded the types of field
`"a"` from two records (`1` then `"x"`). -/
def c2State : Exporter :=
  (runOps (initExporter constCfg [])
    [.exportOp (.cons "a" (.intV 1) .nil) [],
     .exportOp (.cons "a" (.strV "x") .nil) []]).1

/-- C2 witness: the reference definition agrees with `get_column_types`
on the concrete reachable state `c2State`. -/
theorem get_column_types_matches_reference_witness :
    ((((lookupA c2State.recorded_coltypes "t").getD []).map
      (fun kv => kv.1)).Nodup) ∧
    (get_column_types c2State "t").1 =
      resolveColumnsRef ((lookupA c2State.predefined_column_types "t").getD [])
        ((lookupA c2State.recorded_coltypes "t").getD [])
        c2State.cfg.ignore_unexpected_fields
        c2State.cfg.allow_varying_value_types :=
  ⟨by decide, get_column_types_matches_reference c2State "t" (by decide)⟩

/-! ## Claim C7 — determinism, mutation and caching of
`get_column_types` -/

theorem lookupA_append_left {β : Type} (l₁ l₂ : List (String × β)) (k : String)
    (v : β) (h : lookupA l₁ k = some v) : lookupA (l₁ ++ l₂) k = some v := by
  induction l₁ with
  | nil => simp [lookupA] at h
  | cons p rest ih =>
    obtain ⟨k', v'⟩ := p
    by_cases h2 : k' = k <;> simp [lookupA, h2] at h ⊢ <;> [exact h; exact ih h]

theorem setA_setA {β : Type} (l : List (String × β)) (k : String) (v v' : β) :
    setA (setA l k v) k v' = setA l k v' := by
  induction l with
  | nil => simp [setA]
  | cons p rest ih =>
    obtain ⟨k', w⟩ := p
    by_cases h2 : k' = k <;> simp [setA, h2, ih]

/-- Whether the `get_column_types` loop keeps a field with this set of
observed types: a single observed type is always kept, several only when
varying value types are allowed. -/
def resolveKeeps (allow : Bool) : List String → Bool
  | [_] => true
  | _ => allow

/-- The loop only ever appends to its accumulator. -/
theorem resolveFromRecorded_extends (allow : Bool)
    (recorded : List (String × List String)) :
    ∀ cols, ∃ ext, resolveFromRecorded allow cols recorded = cols ++ ext := by
  induction recorded with
  | nil => intro cols; exact ⟨[], by simp [resolveFromRecorded]⟩
  | cons kv rest ih =>
    intro cols
    obtain ⟨k, tys⟩ := kv
    by_cases hk : (lookupA cols k).isSome = true
    · obtain ⟨ext, hext⟩ := ih cols
      exact ⟨ext, by simpa [resolveFromRecorded, hk] using hext⟩
    · rcases tys with _ | ⟨ty, _ | ⟨ty2, tl⟩⟩
      · by_cases ha : allow = true
        · obtain ⟨ext, hext⟩ := ih (cols ++ [(k, "VARIANT")])
          refine ⟨(k, "VARIANT") :: ext, ?_⟩
          have h1 : resolveFromRecorded allow cols ((k, ([] : List String)) :: rest) =
              resolveFromRecorded allow (cols ++ [(k, "VARIANT")]) rest := by
            simp [resolveFromRecorded, hk, ha]
          rw [h1, hext]
          simp
        · obtain ⟨ext, hext⟩ := ih cols
          refine ⟨ext, ?_⟩
          have h1 : resolveFromRecorded allow cols ((k, ([] : List String)) :: rest) =
              resolveFromRecorded allow cols rest := by
            simp [resolveFromRecorded, hk, ha]
          rw [h1, hext]
      · obtain ⟨ext, hext⟩ := ih (cols ++ [(k, ty)])
        refine ⟨(k, ty) :: ext, ?_⟩
        have h1 : resolveFromRecorded allow cols ((k, [ty]) :: rest) =
            resolveFromRecorded allow (cols ++ [(k, ty)]) rest := by
          simp [resolveFromRecorded, hk]
        rw [h1, hext]
        simp
      · by_cases ha : allow = true
        · obtain ⟨ext, hext⟩ := ih (cols ++ [(k, "VARIANT")])
          refine ⟨(k, "VARIANT") :: ext, ?_⟩
          have h1 : resolveFromRecorded allow cols ((k, ty :: ty2 :: tl) :: rest) =
              resolveFromRecorded allow (cols ++ [(k, "VARIANT")]) rest := by
            simp [resolveFromRecorded, hk, ha]
          rw [h1, hext]
          simp
        · obtain ⟨ext, hext⟩ := ih cols
          refine ⟨ext, ?_⟩
          have h1 : resolveFromRecorded allow cols ((k, ty :: ty2 :: tl) :: rest) =
              resolveFromRecorded allow cols rest := by
            simp [resolveFromRecorded, hk, ha]
          rw [h1, hext]

/-- After the loop has run, every recorded field is either present in the
result or of the dropped shape. -/
theorem resolveFromRecorded_post (allow : Bool)
    (recorded : List (String × List String)) :
    ∀ cols kv, kv ∈ recorded →
      (lookupA (resolveFromRecorded allow cols recorded) kv.1).isSome = true ∨
      resolveKeeps allow kv.2 = false := by
  induction recorded with
  | nil => intro cols kv h; simp at h
  | cons kv0 rest ih =>
    intro cols kv hmem
    obtain ⟨k, tys⟩ := kv0
    rcases List.mem_cons.mp hmem with heq | hmem'
    · subst heq
      by_cases hk : (lookupA cols k).isSome = true
      · left
        have h1 : resolveFromRecorded allow cols ((k, tys) :: rest) =
            resolveFromRecorded allow cols rest := by
          simp [resolveFromRecorded, hk]
        rw [h1]
        obtain ⟨ext, hext⟩ := resolveFromRecorded_extends allow rest cols
        rw [hext]
        obtain ⟨v, hv⟩ := Option.isSome_iff_exists.mp hk
        rw [lookupA_append_left cols ext k v hv]
        rfl
      · rcases tys with _ | ⟨ty, _ | ⟨ty2, tl⟩⟩
        · by_cases ha : allow = true
          · left
            have h1 : resolveFromRecorded allow cols ((k, ([] : List String)) :: rest) =
                resolveFromRecorded allow (cols ++ [(k, "VARIANT")]) rest := by
              simp [resolveFromRecorded, hk, ha]
            rw [h1]
            obtain ⟨ext, hext⟩ :=
              resolveFromRecorded_extends allow rest (cols ++ [(k, "VARIANT")])
            rw [hext, List.append_assoc]
            have hnone : lookupA cols k = none := by
              cases hcase : lookupA cols k with
              | none => rfl
              | some w => rw [hcase] at hk; simp at hk
            have h2 : lookupA (cols ++ [(k, "VARIANT")]) k = some "VARIANT" :=
              lookupA_append_new cols k "VARIANT" hnone
            have h3 : lookupA (cols ++ ([(k, "VARIANT")] ++ ext)) k = some "VARIANT" := by
              rw [← List.append_assoc]
              exact lookupA_append_left _ ext k "VARIANT" h2
            rw [h3]
            rfl
          · right
            simp [resolveKeeps]
            simpa using ha
        · left
          have h1 : resolveFromRecorded allow cols ((k, [ty]) :: rest) =
              resolveFromRecorded allow (cols ++ [(k, ty)]) rest := by
            simp [resolveFromRecorded, hk]
          rw [h1]
          obtain ⟨ext, hext⟩ :=
            resolveFromRecorded_extends allow rest (cols ++ [(k, ty)])
          rw [hext, List.append_assoc]
          have hnone : lookupA cols k = none := by
            cases hcase : lookupA cols k with
            | none => rfl
            | some w => rw [hcase] at hk; simp at hk
          have h2 : lookupA (cols ++ [(k, ty)]) k = some ty :=
            lookupA_append_new cols k ty hnone
          have h3 : lookupA (cols ++ ([(k, ty)] ++ ext)) k = some ty := by
            rw [← List.append_assoc]
            exact lookupA_append_left _ ext k ty h2
          rw [h3]
          rfl
        · by_cases ha : allow = true
          · left
            have h1 : resolveFromRecorded allow cols ((k, ty :: ty2 :: tl) :: rest) =
                resolveFromRecorded allow (cols ++ [(k, "VARIANT")]) rest := by
              simp [resolveFromRecorded, hk, ha]
            rw [h1]
            obtain ⟨ext, hext⟩ :=
              resolveFromRecorded_extends allow rest (cols ++ [(k, "VARIANT")])
            rw [hext, List.append_assoc]
            have hnone : lookupA cols k = none := by
              cases hcase : lookupA cols k with
              | none => rfl
              | some w => rw [hcase] at hk; simp at hk
            have h2 : lookupA (cols ++ [(k, "VARIANT")]) k = some "VARIANT" :=
              lookupA_append_new cols k "VARIANT" hnone
            have h3 : lookupA (cols ++ ([(k, "VARIANT")] ++ ext)) k = some "VARIANT" := by
              rw [← List.append_assoc]
              exact lookupA_append_left _ ext k "VARIANT" h2
            rw [h3]
            rfl
          · right
            simp [resolveKeeps]
            simpa using ha
    · clear hmem
      have h1 : resolveFromRecorded allow cols ((k, tys) :: rest) =
          resolveFromRecorded allow
            (if (lookupA cols k).isSome then cols
             else match tys with
               | [ty] => cols ++ [(k, ty)]
               | _ => if allow then cols ++ [(k, "VARIANT")] else cols) rest := by
        simp only [resolveFromRecorded]
      rw [h1]
      exact ih _ kv hmem'

/-- When every recorded field is already present or of the dropped
shape, the loop adds nothing. -/
theorem resolveFromRecorded_no_add (allow : Bool)
    (recorded : List (String × List String)) :
    ∀ cols,
    (∀ kv ∈ recorded,
      (lookupA cols kv.1).isSome = true ∨ resolveKeeps allow kv.2 = false) →
    resolveFromRecorded allow cols recorded = cols := by
  induction recorded with
  | nil => intro cols _; simp [resolveFromRecorded]
  | cons kv0 rest ih =>
    intro cols h
    obtain ⟨k, tys⟩ := kv0
    have hhead := h (k, tys) (List.mem_cons_self _ _)
    have hstep : resolveFromRecorded allow cols ((k, tys) :: rest) =
        resolveFromRecorded allow cols rest := by
      rcases hhead with hk | hdrop
      · simp [resolveFromRecorded, hk]
      · cases tys with
        | nil =>
          have ha : allow = false := by simpa [resolveKeeps] using hdrop
          by_cases hk2 : (lookupA cols k).isSome = true
          · simp [resolveFromRecorded, hk2]
          · simp [resolveFromRecorded, hk2, ha]
        | cons ty tl =>
          cases tl with
          | nil => exact absurd hdrop (by simp [resolveKeeps])
          | cons ty2 tl2 =>
            have ha : allow = false := by simpa [resolveKeeps] using hdrop
            by_cases hk2 : (lookupA cols k).isSome = true
            · simp [resolveFromRecorded, hk2]
            · simp [resolveFromRecorded, hk2, ha]
    rw [hstep]
    exact ih cols (fun kv hm => h kv (List.mem_cons_of_mem _ hm))

/-- Running the `get_column_types` loop a second time over its own
output changes nothing. -/
theorem resolveFromRecorded_fixpoint (allow : Bool)
    (recorded : List (String × List String)) (cols : List (String × String)) :
    resolveFromRecorded allow (resolveFromRecorded allow cols recorded) recorded =
      resolveFromRecorded allow cols recorded :=
  resolveFromRecorded_no_add allow recorded _
    (fun kv hm => resolveFromRecorded_post allow recorded cols kv hm)

/-- Case characterization of `get_column_types`: the early return. -/
theorem gct_early (e : Exporter) (t : String)
    (hc1 : ((lookupA e.predefined_column_types t).getD []) ≠ [] ∧
      e.cfg.ignore_unexpected_fields = true) :
    get_column_types e t =
      (.ok ((lookupA e.predefined_column_types t).getD []), e) := by
  simp only [get_column_types]
  rw [if_pos hc1]

/-- Case characterization of `get_column_types`: the "no valid columns"
error, which leaves the state unchanged. -/
theorem gct_err (e : Exporter) (t : String)
    (hc1 : ¬(((lookupA e.predefined_column_types t).getD []) ≠ [] ∧
      e.cfg.ignore_unexpected_fields = true))
    (hc2 : resolveFromRecorded e.cfg.allow_varying_value_types
      ((lookupA e.predefined_column_types t).getD [])
      ((lookupA e.recorded_coltypes t).getD []) = []) :
    get_column_types e t = (.error .noValidColumns, e) := by
  simp only [get_column_types]
  rw [if_neg hc1, if_pos hc2]

/-- Case characterization of `get_column_types`: no predefined entry, so
the loop's fresh dictionary is returned and the state is unchanged. -/
theorem gct_none (e : Exporter) (t : String)
    (hc1 : ¬(((lookupA e.predefined_column_types t).getD []) ≠ [] ∧
      e.cfg.ignore_unexpected_fields = true))
    (hc2 : ¬(resolveFromRecorded e.cfg.allow_varying_value_types
      ((lookupA e.predefined_column_types t).getD [])
      ((lookupA e.recorded_coltypes t).getD []) = []))
    (hpre : lookupA e.predefined_column_types t = none) :
    get_column_types e t =
      (.ok (resolveFromRecorded e.cfg.allow_varying_value_types
        ((lookupA e.predefined_column_types t).getD [])
        ((lookupA e.recorded_coltypes t).getD [])), e) := by
  simp only [get_column_types]
  rw [if_neg hc1, if_neg hc2, hpre]

/-- Case characterization of `get_column_types`: a predefined entry is
present, so the insertions land in the stored predefined mapping. -/
theorem gct_some (e : Exporter) (t : String) (pre0 : List (String × String))
    (hc1 : ¬(((lookupA e.predefined_column_types t).getD []) ≠ [] ∧
      e.cfg.ignore_unexpected_fields = true))
    (hc2 : ¬(resolveFromRecorded e.cfg.allow_varying_value_types
      ((lookupA e.predefined_column_types t).getD [])
      ((lookupA e.recorded_coltypes t).getD []) = []))
    (hpre : lookupA e.predefined_column_types t = some pre0) :
    get_column_types e t =
      (.ok (resolveFromRecorded e.cfg.allow_varying_value_types
        ((lookupA e.predefined_column_types t).getD [])
        ((lookupA e.recorded_coltypes t).getD [])),
       { e with
          predefined_column_types := setA e.predefined_column_types t
            (resolveFromRecorded e.cfg.allow_varying_value_types
              ((lookupA e.predefined_column_types t).getD [])
              ((lookupA e.recorded_coltypes t).getD [])) }) := by
  simp only [get_column_types]
  rw [if_neg hc1, if_neg hc2, hpre]

/-- C7 amended: `get_column_types` never touches the Column Type Record,
and it is idempotent — calling it again on the state it returned yields
the identical result and state.  (Determinism across repeated calls with
no new records follows.)  What the original claim gets wrong — the
in-place mutation of the predefined mapping, and the staleness it causes
— is exhibited by the counterexample. -/
theorem get_column_types_idempotent_preserves_ctr (e : Exporter) (t : String) :
    ((get_column_types e t).2).recorded_coltypes = e.recorded_coltypes ∧
    get_column_types ((get_column_types e t).2) t = get_column_types e t := by
  constructor
  · obtain ⟨p, hp⟩ := get_column_types_shape e t
    rw [hp]
  · by_cases hc1 : ((lookupA e.predefined_column_types t).getD []) ≠ [] ∧
        e.cfg.ignore_unexpected_fields = true
    · have h1 := gct_early e t hc1
      rw [h1]
      exact h1
    · by_cases hc2 : resolveFromRecorded e.cfg.allow_varying_value_types
          ((lookupA e.predefined_column_types t).getD [])
          ((lookupA e.recorded_coltypes t).getD []) = []
      · have h1 := gct_err e t hc1 hc2
        rw [h1]
        exact h1
      · cases hpre : lookupA e.predefined_column_types t with
        | none =>
          have h1 := gct_none e t hc1 hc2 hpre
          rw [h1]
          exact h1
        | some pre0 =>
          have h1 := gct_some e t pre0 hc1 hc2 hpre
          rw [h1]
          generalize hR : resolveFromRecorded e.cfg.allow_varying_value_types
            ((lookupA e.predefined_column_types t).getD [])
            ((lookupA e.recorded_coltypes t).getD []) = R at hc2 ⊢
          dsimp only
          have hfix : resolveFromRecorded e.cfg.allow_varying_value_types R
              ((lookupA e.recorded_coltypes t).getD []) = R := by
            rw [← hR]
            exact resolveFromRecorded_fixpoint _ _ _
          have hlook : lookupA (setA e.predefined_column_types t R) t = some R :=
            lookupA_setA_self _ _ _
          have hlookD : (lookupA (setA e.predefined_column_types t R) t).getD [] = R := by
            rw [hlook]
            rfl
          by_cases hig : e.cfg.ignore_unexpected_fields = true
          · have h2 := gct_early
              { e with predefined_column_types := setA e.predefined_column_types t R } t
              ⟨by simpa [hlookD] using hc2, hig⟩
            rw [h2]
            simp [hlookD]
          · have hc2'' : ¬(resolveFromRecorded e.cfg.allow_varying_value_types
                ((lookupA (setA e.predefined_column_types t R) t).getD [])
                ((lookupA e.recorded_coltypes t).getD []) = []) := by
              rw [hlookD, hfix]
              exact hc2
            have h2 := gct_some
              { e with predefined_column_types := setA e.predefined_column_types t R } t R
              (fun hx => hig hx.2) hc2'' hlook
            have hX : resolveFromRecorded e.cfg.allow_varying_value_types
                ((lookupA (setA e.predefined_column_types t R) t).getD [])
                ((lookupA e.recorded_coltypes t).getD []) = R := by
              rw [hlookD, hfix]
            rw [h2]
            dsimp only
            rw [hX, setA_setA]

/-- Like `constCfg` but with "ignore unexpected fields" disabled. -/
def noIgnoreCfg : Config :=
  ⟨[.lit "t"], defaultStagePath, 0, 1073741824, false, false, .finish, .finish,
   .never, id⟩

/-- A reachable state with a predefined column mapping for `"t"` and one
record `{"b": 1}` ingested, under `ignore_unexpected_fields=False`. -/
def c7Start : Exporter :=
  (runOps (initExporter noIgnoreCfg [("t", [("a", "VARCHAR")])])
    [.exportOp (.cons "b" (.intV 1) .nil) []]).1

/-- The state after one `get_column_types` call on `c7Start`. -/
def c7Mutated : Exporter := (get_column_types c7Start "t").2

/-- `c7Mutated` after a further record `{"b": "x"}`, which makes field
`"b"` multi-typed in the Column Type Record. -/
def c7Later : Exporter :=
  (runOps c7Mutated [.exportOp (.cons "b" (.strV "x") .nil) []]).1

/-- `c7Later` with the predefined mapping restored to what the caller
originally configured. -/
def c7Fresh : Exporter :=
  { c7Later with predefined_column_types := [("t", [("a", "VARCHAR")])] }

/-- C7 counterexample: calling `get_column_types` mutates the stored
predefined column mapping in place (`"b"` is added to it), and through
that mutation a later call returns a column type cached from the earlier
call — after `"b"` becomes multi-typed, the call still reports
`b NUMBER`, while the same computation on the unmutated predefined
mapping drops `"b"`.  This refutes both "performs no mutation of the
exporter's state" and "always reflects the current Column Type
Record". -/
theorem get_column_types_mutates_counterexample :
    lookupA c7Start.predefined_column_types "t" = some [("a", "VARCHAR")] ∧
    (get_column_types c7Start "t").1 = .ok [("a", "VARCHAR"), ("b", "NUMBER")] ∧
    lookupA c7Mutated.predefined_column_types "t" =
      some [("a", "VARCHAR"), ("b", "NUMBER")] ∧
    lookupA c7Later.recorded_coltypes "t" = some [("b", ["NUMBER", "VARCHAR"])] ∧
    (get_column_types c7Later "t").1 = .ok [("a", "VARCHAR"), ("b", "NUMBER")] ∧
    (get_column_types c7Fresh "t").1 = .ok [("a", "VARCHAR")] := by
  decide

/-! ## Transition characterization of a flush -/

/-- What one `flush_table_buffer` call can do to the state: nothing (no
live buffer, a `KeyError`); only the `setdefault` of the staged-file
list (a failure before the upload); or the full transition — buffer
removed, one staged-file reference appended, one file of exactly the
buffer's bytes uploaded under the next batch number, and possibly the
predefined mapping rewritten by the on-flush triggers. -/
theorem flush_table_buffer_cases (e : Exporter) (t : String) :
    (lookupA e.table_buffers t = none ∧ (flush_table_buffer e t).1 = e)
    ∨ ((lookupA e.table_buffers t).isSome = true ∧
        (flush_table_buffer e t).1 =
          { e with exported_fpaths :=
              if (lookupA e.exported_fpaths t).isSome then e.exported_fpaths
              else e.exported_fpaths ++ [(t, [])] })
    ∨ (∃ buf ref p, lookupA e.table_buffers t = some buf ∧
        (flush_table_buffer e t).1 = { e with
          table_buffers := eraseA e.table_buffers t,
          exported_fpaths := setA
            (if (lookupA e.exported_fpaths t).isSome then e.exported_fpaths
             else e.exported_fpaths ++ [(t, [])]) t
            (((lookupA e.exported_fpaths t).getD []) ++ [ref]),
          flushLog := e.flushLog ++
            [⟨t, ((lookupA e.exported_fpaths t).getD []).length + 1, buf⟩],
          predefined_column_types := p }) := by
  simp only [flush_table_buffer]
  by_cases hfp : (lookupA e.exported_fpaths t).isSome = true
  all_goals
    first
      | rw [if_pos hfp, if_pos hfp]
      | rw [if_neg hfp, if_neg hfp]
  · -- staged-file list already has an entry for t
    split
    · rename_i hb
      exact Or.inl ⟨hb, rfl⟩
    · rename_i buf hb
      split
      · exact Or.inr (Or.inl ⟨by simp [hb], rfl⟩)
      · split
        · exact Or.inr (Or.inl ⟨by simp [hb], rfl⟩)
        · rename_i dirPart fname hsplit
          split
          · rename_i er e₂ heq
            obtain ⟨p₂, hp₂⟩ :=
              ite_action_snd_shape _ create_table create_table_shape _ t _ _ heq
            refine Or.inr (Or.inr ⟨buf, String.mk dirPart ++ "/" ++ e.cfg.putName (String.mk fname), p₂, hb, ?_⟩)
            rw [hp₂]
          · rename_i u₂ e₂ heq
            obtain ⟨p₂, hp₂⟩ :=
              ite_action_snd_shape _ create_table create_table_shape _ t _ _ heq
            split
            · rename_i er e₃ heq₃
              obtain ⟨p₃, hp₃⟩ :=
                ite_action_snd_shape _ populate_table populate_table_shape _ t _ _ heq₃
              rw [hp₂] at hp₃
              refine Or.inr (Or.inr ⟨buf, String.mk dirPart ++ "/" ++ e.cfg.putName (String.mk fname), p₃, hb, ?_⟩)
              rw [hp₃]
            · rename_i u₃ e₃ heq₃
              obtain ⟨p₃, hp₃⟩ :=
                ite_action_snd_shape _ populate_table populate_table_shape _ t _ _ heq₃
              rw [hp₂] at hp₃
              refine Or.inr (Or.inr ⟨buf, String.mk dirPart ++ "/" ++ e.cfg.putName (String.mk fname), p₃, hb, ?_⟩)
              split
              · simp only [clear_stage]
                rw [hp₃]
              · rw [hp₃]
  · -- no staged-file entry for t yet: the setdefault appends one
    have hnone : lookupA e.exported_fpaths t = none := by
      cases hcase : lookupA e.exported_fpaths t with
      | none => rfl
      | some w => rw [hcase] at hfp; simp at hfp
    have h01 : lookupA (e.exported_fpaths ++ [(t, [])]) t = some [] :=
      lookupA_append_new _ _ _ hnone
    split
    · rename_i hb
      exact Or.inl ⟨hb, rfl⟩
    · rename_i buf hb
      split
      · exact Or.inr (Or.inl ⟨by simp [hb], rfl⟩)
      · split
        · exact Or.inr (Or.inl ⟨by simp [hb], rfl⟩)
        · rename_i dirPart fname hsplit
          split
          · rename_i er e₂ heq
            obtain ⟨p₂, hp₂⟩ :=
              ite_action_snd_shape _ create_table create_table_shape _ t _ _ heq
            refine Or.inr (Or.inr ⟨buf, String.mk dirPart ++ "/" ++ e.cfg.putName (String.mk fname), p₂, hb, ?_⟩)
            rw [hp₂]
            simp [h01, hnone]
          · rename_i u₂ e₂ heq
            obtain ⟨p₂, hp₂⟩ :=
              ite_action_snd_shape _ create_table create_table_shape _ t _ _ heq
            split
            · rename_i er e₃ heq₃
              obtain ⟨p₃, hp₃⟩ :=
                ite_action_snd_shape _ populate_table populate_table_shape _ t _ _ heq₃
              rw [hp₂] at hp₃
              refine Or.inr (Or.inr ⟨buf, String.mk dirPart ++ "/" ++ e.cfg.putName (String.mk fname), p₃, hb, ?_⟩)
              rw [hp₃]
              simp [h01, hnone]
            · rename_i u₃ e₃ heq₃
              obtain ⟨p₃, hp₃⟩ :=
                ite_action_snd_shape _ populate_table populate_table_shape _ t _ _ heq₃
              rw [hp₂] at hp₃
              refine Or.inr (Or.inr ⟨buf, String.mk dirPart ++ "/" ++ e.cfg.putName (String.mk fname), p₃, hb, ?_⟩)
              split
              · simp only [clear_stage]
                rw [hp₃]
                simp [h01, hnone]
              · rw [hp₃]
                simp [h01, hnone]

/-! ## The trace invariant behind claims C1 and C9 -/

theorem isSome_false_eq_none {β : Type} (o : Option β) (h : ¬o.isSome = true) :
    o = none := by
  cases o with
  | none => rfl
  | some v => simp at h

/-- The state invariant maintained by every exporter operation: buffer
and staged-file dictionaries have distinct keys; per destination, the
bytes of the flushed files followed by the open buffer are exactly the
appended lines in arrival order; the staged-file list has one entry per
flush; and the batch numbers used so far are `1, 2, ..., n`. -/
structure TraceInv (e : Exporter) : Prop where
  nodupB : (keysA e.table_buffers).Nodup
  nodupF : (keysA e.exported_fpaths).Nodup
  concat : ∀ t, flushedBytes e t ++ bufferBytes e t = (appendedFor e t).flatten
  counts : ∀ t,
    ((lookupA e.exported_fpaths t).getD []).length = (flushedFor e t).length
  batch : ∀ t, batchNums e t = List.range' 1 (flushedFor e t).length

/-- The invariant holds of a fresh exporter. -/
theorem traceInv_init (cfg : Config)
    (predef : List (String × List (String × String))) :
    TraceInv (initExporter cfg predef) := by
  constructor <;>
    simp [initExporter, keysA, flushedBytes, flushedFor, bufferBytes,
      appendedFor, batchNums, lookupA]

/-- Flushing one destination preserves the invariant. -/
theorem traceInv_flush (e : Exporter) (t : String) (h : TraceInv e) :
    TraceInv (flush_table_buffer e t).1 := by
  rcases flush_table_buffer_cases e t with ⟨hb, hres⟩ | ⟨hb, hres⟩ |
    ⟨buf, ref, p, hb, hres⟩
  · rw [hres]; exact h
  · rw [hres]
    by_cases hfp : (lookupA e.exported_fpaths t).isSome = true
    · rw [if_pos hfp]
      exact ⟨h.nodupB, h.nodupF, h.concat, h.counts, h.batch⟩
    · rw [if_neg hfp]
      have hnone := isSome_false_eq_none _ hfp
      refine ⟨h.nodupB, ?_, h.concat, ?_, h.batch⟩
      · have hk : keysA (e.exported_fpaths ++ [(t, [])]) =
            keysA e.exported_fpaths ++ [t] := by simp [keysA]
        rw [hk]
        have hmem := lookupA_none_not_mem _ _ hnone
        simp [List.nodup_append, hmem, h.nodupF]
      · intro u
        by_cases hu : u = t
        · subst hu
          have h1 : lookupA (e.exported_fpaths ++ [(u, [])]) u = some [] :=
            lookupA_append_new _ _ _ hnone
          have h2 := h.counts u
          rw [hnone] at h2
          simp only [flushedFor] at h2 ⊢
          rw [h1]
          simpa using h2
        · have h1 : lookupA (e.exported_fpaths ++ [(t, [])]) u =
              lookupA e.exported_fpaths u := lookupA_append_ne _ _ _ _ hu
          have h2 := h.counts u
          simp only [flushedFor] at h2 ⊢
          rw [h1]
          exact h2
  · rw [hres]
    have hbuf : bufferBytes e t = buf := by simp [bufferBytes, hb]
    refine ⟨?_, ?_, ?_, ?_, ?_⟩
    · exact List.Nodup.sublist (keysA_eraseA_sublist e.table_buffers t) h.nodupB
    · by_cases hfp : (lookupA e.exported_fpaths t).isSome = true
      · rw [if_pos hfp, keysA_setA_present _ _ _ hfp]
        exact h.nodupF
      · rw [if_neg hfp]
        have hnone := isSome_false_eq_none _ hfp
        have h1 : lookupA (e.exported_fpaths ++ [(t, [])]) t = some [] :=
          lookupA_append_new _ _ _ hnone
        rw [keysA_setA_present _ _ _ (by simp [h1])]
        have hk : keysA (e.exported_fpaths ++ [(t, [])]) =
            keysA e.exported_fpaths ++ [t] := by simp [keysA]
        rw [hk]
        have hmem := lookupA_none_not_mem _ _ hnone
        simp [List.nodup_append, hmem, h.nodupF]
    · intro u
      by_cases hu : u = t
      · subst hu
        have h3 := h.concat u
        rw [hbuf] at h3
        have h2 : lookupA (eraseA e.table_buffers u) u = none :=
          lookupA_eraseA_self _ _ h.nodupB
        simp only [flushedBytes, flushedFor, bufferBytes, appendedFor,
          List.filter_append] at h3 ⊢
        rw [h2]
        simpa using h3
      · have h3 := h.concat u
        have hne : (t == u) = false := by
          simp
          exact fun hh => hu hh.symm
        have h2 : lookupA (eraseA e.table_buffers t) u =
            lookupA e.table_buffers u := lookupA_eraseA_ne _ _ _ hu
        simp only [flushedBytes, flushedFor, bufferBytes, appendedFor,
          List.filter_append] at h3 ⊢
        rw [h2]
        simpa [hne] using h3
    · intro u
      by_cases hu : u = t
      · subst hu
        have h1 : lookupA (setA
            (if (lookupA e.exported_fpaths u).isSome then e.exported_fpaths
             else e.exported_fpaths ++ [(u, [])]) u
            (((lookupA e.exported_fpaths u).getD []) ++ [ref])) u =
            some (((lookupA e.exported_fpaths u).getD []) ++ [ref]) :=
          lookupA_setA_self _ _ _
        have h2 := h.counts u
        simp only [flushedFor, List.filter_append] at h2 ⊢
        simp [h1, h2]
      · have h1 : lookupA (setA
            (if (lookupA e.exported_fpaths t).isSome then e.exported_fpaths
             else e.exported_fpaths ++ [(t, [])]) t
            (((lookupA e.exported_fpaths t).getD []) ++ [ref])) u =
            lookupA e.exported_fpaths u := by
          rw [lookupA_setA_ne _ _ _ _ hu]
          by_cases hfp : (lookupA e.exported_fpaths t).isSome = true
          · rw [if_pos hfp]
          · rw [if_neg hfp]
            exact lookupA_append_ne _ _ _ _ hu
        have h2 := h.counts u
        have hne : (t == u) = false := by
          simp
          exact fun hh => hu hh.symm
        simp only [flushedFor, List.filter_append] at h2 ⊢
        rw [h1]
        simpa [hne] using h2
    · intro u
      by_cases hu : u = t
      · subst hu
        have h2 := h.batch u
        have h3 := h.counts u
        simp only [batchNums, flushedFor, List.filter_append, List.map_append,
          List.length_append] at h2 h3 ⊢
        simp only [List.filter_cons, List.filter_nil, beq_self_eq_true,
          if_true, List.map_cons, List.map_nil, List.length_cons,
          List.length_nil]
        rw [h2, ← h3]
        rw [List.range'_concat]
        simp [Nat.add_comm]
      · have h2 := h.batch u
        have hne : (t == u) = false := by
          simp
          exact fun hh => hu hh.symm
        simp only [batchNums, flushedFor, List.filter_append] at h2 ⊢
        simpa [hne] using h2

/-- Creating a fresh empty buffer preserves the invariant. -/
theorem traceInv_newBuffer (e : Exporter) (t : String) (h : TraceInv e)
    (hnone : lookupA e.table_buffers t = none) :
    TraceInv { e with table_buffers := e.table_buffers ++ [(t, [])] } := by
  refine ⟨?_, h.nodupF, ?_, h.counts, h.batch⟩
  · have hk : keysA (e.table_buffers ++ [(t, [])]) =
        keysA e.table_buffers ++ [t] := by simp [keysA]
    rw [hk]
    have hmem := lookupA_none_not_mem _ _ hnone
    simp [List.nodup_append, hmem, h.nodupB]
  · intro u
    by_cases hu : u = t
    · subst hu
      have h1 : lookupA (e.table_buffers ++ [(u, [])]) u = some [] :=
        lookupA_append_new _ _ _ hnone
      have h3 := h.concat u
      simp only [bufferBytes] at h3 ⊢
      rw [h1, hnone] at *
      simpa using h3
    · have h1 := lookupA_append_ne e.table_buffers t u ([] : List Nat) hu
      have h3 := h.concat u
      simp only [bufferBytes] at h3 ⊢
      rw [h1]
      exact h3

/-- Appending a serialized line to an existing buffer (and logging it)
preserves the invariant. -/
theorem traceInv_write (e : Exporter) (t : String) (line : List Nat)
    (h : TraceInv e) (hsome : (lookupA e.table_buffers t).isSome = true) :
    TraceInv { e with
      table_buffers :=
        setA e.table_buffers t (((lookupA e.table_buffers t).getD []) ++ line),
      appendLog := e.appendLog ++ [(t, line)] } := by
  refine ⟨?_, h.nodupF, ?_, h.counts, h.batch⟩
  · rw [keysA_setA_present _ _ _ hsome]
    exact h.nodupB
  · intro u
    by_cases hu : u = t
    · subst hu
      have h1 : lookupA (setA e.table_buffers u
          (((lookupA e.table_buffers u).getD []) ++ line)) u =
          some (((lookupA e.table_buffers u).getD []) ++ line) :=
        lookupA_setA_self _ _ _
      have h3 := h.concat u
      simp only [bufferBytes, appendedFor, flushedBytes, flushedFor,
        List.filter_append] at h3 ⊢
      rw [h1]
      simp only [Option.getD_some]
      rw [← List.append_assoc, h3]
      simp
    · have h1 := lookupA_setA_ne e.table_buffers t u
        (((lookupA e.table_buffers t).getD []) ++ line) hu
      have hne : (t == u) = false := by
        simp
        exact fun hh => hu hh.symm
      have h3 := h.concat u
      simp only [bufferBytes, appendedFor, flushedBytes, flushedFor,
        List.filter_append] at h3 ⊢
      rw [h1]
      simpa [hne] using h3

/-- Ingesting one record preserves the invariant. -/
theorem traceInv_export (e : Exporter) (item : PyObj)
    (ps : List (String × String)) (h : TraceInv e) :
    TraceInv (export_item e item ps).1 := by
  simp only [export_item]
  split
  · exact h
  · rename_i t htf
    split
    · rename_i er hd
      by_cases hb : (lookupA e.table_buffers t).isSome = true
      · rw [if_pos hb]
        exact h
      · rw [if_neg hb]
        exact traceInv_newBuffer e t h (isSome_false_eq_none _ hb)
    · rename_i s hd
      by_cases hb : (lookupA e.table_buffers t).isSome = true
      all_goals
        first
          | rw [if_pos hb]
          | rw [if_neg hb]
      · have h1 := traceInv_write e t (utf8Bytes (s ++ "\n")) h hb
        split
        · split
          · rename_i e₃ er hflush
            have h4 := traceInv_flush _ t h1
            rw [hflush] at h4
            exact h4
          · rename_i e₃ hflush
            have h4 := traceInv_flush _ t h1
            rw [hflush] at h4
            exact ⟨h4.nodupB, h4.nodupF, h4.concat, h4.counts, h4.batch⟩
        · exact ⟨h1.nodupB, h1.nodupF, h1.concat, h1.counts, h1.batch⟩
      · have hnone := isSome_false_eq_none _ hb
        have h0 := traceInv_newBuffer e t h hnone
        have hsome1 : (lookupA
            ({ e with table_buffers := e.table_buffers ++ [(t, [])]
             } : Exporter).table_buffers t).isSome = true := by
          simp [lookupA_append_new _ _ _ hnone]
        have h1 := traceInv_write _ t (utf8Bytes (s ++ "\n")) h0 hsome1
        split
        · split
          · rename_i e₃ er hflush
            have h4 := traceInv_flush _ t h1
            rw [hflush] at h4
            exact h4
          · rename_i e₃ hflush
            have h4 := traceInv_flush _ t h1
            rw [hflush] at h4
            exact ⟨h4.nodupB, h4.nodupF, h4.concat, h4.counts, h4.batch⟩
        · exact ⟨h1.nodupB, h1.nodupF, h1.concat, h1.counts, h1.batch⟩

/-- The `flush_all` loop preserves the invariant. -/
theorem traceInv_flushKeys (ks : List String) :
    ∀ e, TraceInv e → TraceInv (flushKeys e ks).1 := by
  induction ks with
  | nil => intro e h; exact h
  | cons t ts ih =>
    intro e h
    simp only [flushKeys]
    rcases hf : flush_table_buffer e t with ⟨e', r⟩
    have h' := traceInv_flush e t h
    rw [hf] at h'
    cases r with
    | none => exact ih e' h'
    | some er => exact h'

/-- Every trace operation preserves the invariant. -/
theorem traceInv_step (e : Exporter) (op : Op) (h : TraceInv e) :
    TraceInv (stepOp e op).1 := by
  cases op with
  | exportOp item ps =>
    simp only [stepOp]
    rcases he : export_item e item ps with ⟨e', r⟩
    have h' := traceInv_export e item ps h
    rw [he] at h'
    cases r <;> exact h'
  | flushOp t => exact traceInv_flush e t h
  | flushAllOp => exact traceInv_flushKeys (keysA e.table_buffers) e h

/-- The invariant holds after any trace. -/
theorem traceInv_run (ops : List Op) :
    ∀ e, TraceInv e → TraceInv (runOps e ops).1 := by
  induction ops with
  | nil => intro e h; exact h
  | cons op rest ih =>
    intro e h
    simp only [runOps]
    rcases hs : stepOp e op with ⟨e₁, r⟩
    have h1 := traceInv_step e op h
    rw [hs] at h1
    cases r with
    | none => exact ih e₁ h1
    | some er => exact ih e₁ h1

/-- The exporter reached by a trace from a fresh exporter. -/
def runInit (cfg : Config) (predef : List (String × List (String × String)))
    (ops : List Op) : Exporter :=
  (runOps (initExporter cfg predef) ops).1

/-- C1. Along any trace from a fresh exporter, for every destination the
concatenation of the uploaded file contents (in upload order) followed by
the bytes still sitting in the live buffer equals the concatenation of all
serialized lines ever appended for that destination: flushing moves bytes
out of the buffer verbatim, never loses or duplicates them. -/
theorem flushed_concat_eq_serialized_arrivals (cfg : Config)
    (predef : List (String × List (String × String))) (ops : List Op)
    (t : String) :
    flushedBytes (runInit cfg predef ops) t ++
        bufferBytes (runInit cfg predef ops) t =
      (appendedFor (runInit cfg predef ops) t).flatten :=
  (traceInv_run ops (initExporter cfg predef)
    (traceInv_init cfg predef)).concat t

/-- A single flush only ever appends to a destination's file-path list. -/
theorem fpaths_extend_flush (e : Exporter) (t u : String) :
    ∃ tl, (lookupA ((flush_table_buffer e t).1).exported_fpaths u).getD [] =
      ((lookupA e.exported_fpaths u).getD []) ++ tl := by
  rcases flush_table_buffer_cases e t with
    ⟨hb, hres⟩ | ⟨hb, hres⟩ | ⟨buf, ref, p, hb, hres⟩
  · rw [hres]
    exact ⟨[], by simp⟩
  · rw [hres]
    by_cases hfp : (lookupA e.exported_fpaths t).isSome = true
    · rw [if_pos hfp]
      exact ⟨[], by simp⟩
    · rw [if_neg hfp]
      by_cases hu : u = t
      · subst hu
        refine ⟨[], ?_⟩
        rw [lookupA_append_new _ _ _ (isSome_false_eq_none _ hfp),
          isSome_false_eq_none _ hfp]
        simp
      · refine ⟨[], ?_⟩
        rw [lookupA_append_ne _ _ _ _ hu]
        simp
  · rw [hres]
    by_cases hu : u = t
    · subst hu
      exact ⟨[ref], by rw [lookupA_setA_self]; simp⟩
    · refine ⟨[], ?_⟩
      rw [lookupA_setA_ne _ _ _ _ hu]
      by_cases hfp : (lookupA e.exported_fpaths t).isSome = true
      · rw [if_pos hfp]
        simp
      · rw [if_neg hfp]
        have hne : u ≠ t := hu
        rw [lookupA_append_ne _ _ _ _ hne]
        simp

/-- Equation form of `fpaths_extend_flush`. -/
theorem fpaths_extend_flush_eq (e e' : Exporter) (t u : String)
    (r : Option ExpErr) (heq : flush_table_buffer e t = (e', r)) :
    ∃ tl, (lookupA e'.exported_fpaths u).getD [] =
      ((lookupA e.exported_fpaths u).getD []) ++ tl := by
  have h := fpaths_extend_flush e t u
  rw [heq] at h
  exact h

/-- Ingesting a record only ever appends to a destination's file-path
list (via the threshold flush it may trigger). -/
theorem fpaths_extend_export (e : Exporter) (item : PyObj)
    (ps : List (String × String)) (u : String) :
    ∃ tl, (lookupA ((export_item e item ps).1).exported_fpaths u).getD [] =
      ((lookupA e.exported_fpaths u).getD []) ++ tl := by
  simp only [export_item]
  split
  · exact ⟨[], by simp⟩
  · rename_i t htf
    split
    · rename_i er hd
      by_cases hb : (lookupA e.table_buffers t).isSome = true
      · rw [if_pos hb]
        exact ⟨[], by simp⟩
      · rw [if_neg hb]
        exact ⟨[], by simp⟩
    · rename_i s hd
      by_cases hb : (lookupA e.table_buffers t).isSome = true
      all_goals
        first
          | rw [if_pos hb]
          | rw [if_neg hb]
      all_goals
        split
      case pos.isTrue =>
        split
        · rename_i e₃ er hflush
          obtain ⟨tl, htl⟩ := fpaths_extend_flush_eq _ _ t u _ hflush
          exact ⟨tl, htl⟩
        · rename_i e₃ hflush
          obtain ⟨tl, htl⟩ := fpaths_extend_flush_eq _ _ t u _ hflush
          exact ⟨tl, htl⟩
      case pos.isFalse => exact ⟨[], by simp [record_field_types]⟩
      case neg.isTrue =>
        split
        · rename_i e₃ er hflush
          obtain ⟨tl, htl⟩ := fpaths_extend_flush_eq _ _ t u _ hflush
          exact ⟨tl, htl⟩
        · rename_i e₃ hflush
          obtain ⟨tl, htl⟩ := fpaths_extend_flush_eq _ _ t u _ hflush
          exact ⟨tl, htl⟩
      case neg.isFalse => exact ⟨[], by simp [record_field_types]⟩

/-- `flush_all` only ever appends to a destination's file-path list. -/
theorem fpaths_extend_flushKeys (ks : List String) :
    ∀ e u, ∃ tl,
      (lookupA ((flushKeys e ks).1).exported_fpaths u).getD [] =
        ((lookupA e.exported_fpaths u).getD []) ++ tl := by
  induction ks with
  | nil => intro e u; exact ⟨[], by simp [flushKeys]⟩
  | cons t ts ih =>
    intro e u
    simp only [flushKeys]
    rcases hf : flush_table_buffer e t with ⟨e', r⟩
    obtain ⟨t1, h1⟩ := fpaths_extend_flush_eq e e' t u r hf
    cases r with
    | none =>
      obtain ⟨t2, h2⟩ := ih e' u
      exact ⟨t1 ++ t2, by rw [h2, h1, List.append_assoc]⟩
    | some er => exact ⟨t1, h1⟩

/-- Every trace operation only ever appends to a destination's file-path
list: a staged-file reference, once recorded, is never removed or
reordered. -/
theorem fpaths_extend_step (e : Exporter) (op : Op) (u : String) :
    ∃ tl, (lookupA ((stepOp e op).1).exported_fpaths u).getD [] =
      ((lookupA e.exported_fpaths u).getD []) ++ tl := by
  cases op with
  | exportOp item ps =>
    simp only [stepOp]
    rcases he : export_item e item ps with ⟨e', r⟩
    have h := fpaths_extend_export e item ps u
    rw [he] at h
    cases r <;> exact h
  | flushOp t => exact fpaths_extend_flush e t u
  | flushAllOp => exact fpaths_extend_flushKeys _ e u

/-- C9. Along any trace from a fresh exporter: the batch numbers used by
the staged files of a destination are exactly 1, 2, 3, ... in upload
order (the n-th flush of a destination uses batch number n, derived from
the length of that destination's file-path list before appending); the
file-path list of a destination has exactly one entry per completed
flush; and any further operation only appends to that list, so recorded
staged-file references are never removed, reordered or renumbered. -/
theorem batch_numbers_sequential (cfg : Config)
    (predef : List (String × List (String × String))) (ops : List Op)
    (t : String) :
    batchNums (runInit cfg predef ops) t =
      List.range' 1 (flushedFor (runInit cfg predef ops) t).length ∧
    ((lookupA (runInit cfg predef ops).exported_fpaths t).getD []).length =
      (flushedFor (runInit cfg predef ops) t).length ∧
    ∀ op, ∃ tl,
      (lookupA
          ((stepOp (runInit cfg predef ops) op).1).exported_fpaths t).getD []
        = ((lookupA (runInit cfg predef ops).exported_fpaths t).getD [])
            ++ tl := by
  have h := traceInv_run ops (initExporter cfg predef)
    (traceInv_init cfg predef)
  exact ⟨h.batch t, h.counts t, fun op => fpaths_extend_step _ op t⟩

/-! ## Claim C3 — flush threshold and staged-file count -/

/-- A trace that only ingests records. -/
def exportsOf (items : List (PyObj × List (String × String))) : List Op :=
  items.map (fun p => Op.exportOp p.1 p.2)

/-- `constCfg` with a 16-byte flush threshold. -/
def c3Cfg : Config :=
  ⟨[.lit "t"], defaultStagePath, 0, 16, true, false, .finish, .finish,
   .never, id⟩

/-- The record `{"a": 1}`, a 9-byte serialized line. -/
def c3Item : PyObj := .cons "a" (.intV 1) .nil

/-- Four such records. -/
def c3Items : List (PyObj × List (String × String)) :=
  [(c3Item, []), (c3Item, []), (c3Item, []), (c3Item, [])]

/-- Four ingests followed by the final `flush_all_table_buffers`. -/
def c3Ops : List Op := exportsOf c3Items ++ [Op.flushAllOp]

/-- Counterexample to `ceil(T/S)`: four 9-byte records with a 16-byte
threshold run without error and append T = 36 bytes, but produce 2 staged
files (each flush drains the whole 18-byte buffer), not
`ceil(36/16) = 3`. -/
theorem file_count_ne_ceil_counterexample :
    (runOps (initExporter c3Cfg []) c3Ops).2 = [] ∧
    ((appendedFor (runInit c3Cfg [] c3Ops) "t").flatten).length = 36 ∧
    (flushedFor (runInit c3Cfg [] c3Ops) "t").length = 2 ∧
    (36 + c3Cfg.max_file_size - 1) / c3Cfg.max_file_size = 3 := by
  decide

theorem utf8Bytes_append (s t : String) :
    utf8Bytes (s ++ t) = utf8Bytes s ++ utf8Bytes t := by
  simp [utf8Bytes, String.data_append]

theorem utf8Bytes_line_ne_nil (s : String) : utf8Bytes (s ++ "\n") ≠ [] := by
  rw [utf8Bytes_append]
  have h : utf8Bytes "\n" = [10] := by decide
  simp [h]

theorem lookupA_eraseA_none {β : Type} (l : List (String × β)) (k u : String)
    (h : lookupA l u = none) : lookupA (eraseA l k) u = none := by
  induction l with
  | nil => simp [eraseA, lookupA]
  | cons p rest ih =>
    obtain ⟨k', v'⟩ := p
    by_cases h3 : k' = u
    · subst h3
      rw [lookupA, if_pos rfl] at h
      exact absurd h (by simp)
    · rw [lookupA, if_neg h3] at h
      by_cases h2 : k' = k
      · subst h2
        simp only [eraseA, if_pos rfl]
        exact h
      · simp only [eraseA, if_neg h2, lookupA, if_neg h3]
        exact ih h

/-- Files all at least `S` bytes give at least `n * S` flushed bytes. -/
theorem flushLog_flatten_lower (S : Nat) : ∀ (l : List FlushEvent),
    (∀ f ∈ l, S ≤ f.content.length) →
    l.length * S ≤ ((l.map (fun f => f.content)).flatten).length := by
  intro l
  induction l with
  | nil => simp
  | cons f rest ih =>
    intro h
    simp only [List.map_cons, List.flatten_cons, List.length_append,
      List.length_cons]
    have h1 := h f (by simp)
    have h2 := ih (fun g hg => h g (by simp [hg]))
    rw [Nat.succ_mul]
    exact le_trans (Nat.add_le_add h2 h1) (by omega)

theorem count_le_ceil_of_mul_le (n S T : Nat) (hS : 1 ≤ S)
    (h : n * S ≤ T) : n ≤ (T + S - 1) / S := by
  rw [Nat.le_div_iff_mul_le hS]
  exact le_trans h (by omega)

theorem count_succ_le_ceil (n S T : Nat) (hS : 1 ≤ S)
    (h : n * S + 1 ≤ T) : n + 1 ≤ (T + S - 1) / S := by
  rw [Nat.le_div_iff_mul_le hS, Nat.succ_mul]
  have hk : ∀ k, n * S = k → k + S ≤ T + S - 1 := by
    intro k hkk
    rw [hkk] at h
    omega
  exact hk (n * S) rfl

/-- A successful flush found a live buffer and performed the full
transition: the buffer is removed, its bytes are uploaded under the next
batch number, and the reference is appended to the staged-file list. -/
theorem flush_none_cases (e : Exporter) (t : String) (e' : Exporter)
    (h : flush_table_buffer e t = (e', none)) :
    ∃ buf ref p, lookupA e.table_buffers t = some buf ∧
      e' = { e with
        table_buffers := eraseA e.table_buffers t,
        exported_fpaths := setA
          (if (lookupA e.exported_fpaths t).isSome then e.exported_fpaths
           else e.exported_fpaths ++ [(t, [])]) t
          (((lookupA e.exported_fpaths t).getD []) ++ [ref]),
        flushLog := e.flushLog ++
          [⟨t, ((lookupA e.exported_fpaths t).getD []).length + 1, buf⟩],
        predefined_column_types := p } := by
  have hcl : ∀ (x : Exporter) (l : List String),
      (if e.cfg.clear_stage_on = ExporterEvent.flush then clear_stage x l
       else x) = x := by
    intro x l
    split <;> rfl
  simp only [flush_table_buffer] at h
  by_cases hfp : (lookupA e.exported_fpaths t).isSome = true
  all_goals
    first
      | rw [if_pos hfp] at h ⊢
      | rw [if_neg hfp] at h ⊢
  · split at h
    · simp at h
    · rename_i buf hb
      split at h
      · simp at h
      · rename_i fpath hfpath
        split at h
        · simp at h
        · rename_i dirPart fname hsplit
          split at h
          · simp at h
          · rename_i u₂ e₂ heq
            split at h
            · simp at h
            · rename_i u₃ e₃ heq₃
              rw [hcl] at h
              have he' : e₃ = e' := congrArg Prod.fst h
              obtain ⟨p₂, hp₂⟩ :=
                ite_action_snd_shape _ create_table create_table_shape _ t _ _ heq
              obtain ⟨p₃, hp₃⟩ :=
                ite_action_snd_shape _ populate_table populate_table_shape _ t _ _ heq₃
              rw [hp₂] at hp₃
              refine ⟨buf, String.mk dirPart ++ "/" ++ e.cfg.putName (String.mk fname), p₃, hb, ?_⟩
              rw [← he', hp₃]
  · have hnone : lookupA e.exported_fpaths t = none := isSome_false_eq_none _ hfp
    have h01 : lookupA (e.exported_fpaths ++ [(t, [])]) t = some [] :=
      lookupA_append_new _ _ _ hnone
    split at h
    · simp at h
    · rename_i buf hb
      split at h
      · simp at h
      · rename_i fpath hfpath
        split at h
        · simp at h
        · rename_i dirPart fname hsplit
          split at h
          · simp at h
          · rename_i u₂ e₂ heq
            split at h
            · simp at h
            · rename_i u₃ e₃ heq₃
              rw [hcl] at h
              have he' : e₃ = e' := congrArg Prod.fst h
              obtain ⟨p₂, hp₂⟩ :=
                ite_action_snd_shape _ create_table create_table_shape _ t _ _ heq
              obtain ⟨p₃, hp₃⟩ :=
                ite_action_snd_shape _ populate_table populate_table_shape _ t _ _ heq₃
              rw [hp₂] at hp₃
              refine ⟨buf, String.mk dirPart ++ "/" ++ e.cfg.putName (String.mk fname), p₃, hb, ?_⟩
              rw [← he', hp₃]
              simp [h01, hnone]

/-- The invariant of export-only error-free traces: every file flushed so
far holds at least `S` bytes (the threshold was reached before the
flush), and every live buffer is nonempty and strictly below the
threshold. -/
structure C3Inv (S : Nat) (e : Exporter) : Prop where
  files : ∀ f ∈ e.flushLog, S ≤ f.content.length
  live : ∀ t buf, lookupA e.table_buffers t = some buf →
    buf ≠ [] ∧ buf.length < S

/-- The invariant holds of a fresh exporter. -/
theorem c3inv_init (S : Nat) (cfg : Config)
    (predef : List (String × List (String × String))) :
    C3Inv S (initExporter cfg predef) := by
  refine ⟨?_, ?_⟩
  · intro f hf
    simp [initExporter] at hf
  · intro t buf h
    simp [initExporter, lookupA] at h

/-- After a successful threshold-triggered flush (plus the trailing type
recording), the invariant is restored: the uploaded file is the whole
buffer, whose size had reached the threshold, and the buffer is gone. -/
theorem c3inv_triggered (S : Nat) (E₂ e₃ : Exporter) (t : String)
    (item : PyObj) (hnodup : (keysA E₂.table_buffers).Nodup)
    (hfiles : ∀ f ∈ E₂.flushLog, S ≤ f.content.length)
    (hlive : ∀ u bufu, u ≠ t → lookupA E₂.table_buffers u = some bufu →
      bufu ≠ [] ∧ bufu.length < S)
    (hS : S ≤ ((lookupA E₂.table_buffers t).getD []).length)
    (hflush : flush_table_buffer E₂ t = (e₃, none)) :
    C3Inv S (record_field_types e₃ t item) := by
  obtain ⟨buf, ref, p, hbuf, he₃⟩ := flush_none_cases _ _ _ hflush
  subst he₃
  refine ⟨?_, ?_⟩
  · intro f hf
    simp [record_field_types] at hf
    rcases hf with hf | hf
    · exact hfiles f hf
    · subst hf
      rw [hbuf] at hS
      simpa using hS
  · intro u bufu hlu
    simp only [record_field_types] at hlu
    by_cases hu : u = t
    · subst hu
      rw [lookupA_eraseA_self _ _ hnodup] at hlu
      exact absurd hlu (by simp)
    · rw [lookupA_eraseA_ne _ _ _ hu] at hlu
      exact hlive u bufu hu hlu

/-- A successful `export_item` call preserves the invariant and the
configuration. -/
theorem c3inv_export (S : Nat) (e e' : Exporter) (item : PyObj)
    (ps : List (String × String)) (t' : String)
    (h : TraceInv e) (hc : C3Inv S e) (hcfg : e.cfg.max_file_size = S)
    (heq : export_item e item ps = (e', Except.ok t')) :
    C3Inv S e' ∧ e'.cfg = e.cfg := by
  simp only [export_item] at heq
  split at heq
  · simp at heq
  · rename_i t htf
    split at heq
    · simp at heq
    · rename_i s hd
      by_cases hb : (lookupA e.table_buffers t).isSome = true
      all_goals
        first
          | rw [if_pos hb] at heq
          | rw [if_neg hb] at heq
      · split at heq
        · rename_i hsf
          split at heq
          · simp at heq
          · rename_i e₃ hflush
            injection heq with he' ht'
            subst he'
            have hnodup2 : (keysA (setA e.table_buffers t
                (((lookupA e.table_buffers t).getD []) ++
                  utf8Bytes (s ++ "\n")))).Nodup := by
              rw [keysA_setA_present _ _ _ hb]
              exact h.nodupB
            have hlive2 : ∀ u bufu, u ≠ t →
                lookupA (setA e.table_buffers t
                  (((lookupA e.table_buffers t).getD []) ++
                    utf8Bytes (s ++ "\n"))) u = some bufu →
                bufu ≠ [] ∧ bufu.length < S := by
              intro u bufu hu hlu
              rw [lookupA_setA_ne _ _ _ _ hu] at hlu
              exact hc.live u bufu hlu
            have hS2 : S ≤ ((lookupA (setA e.table_buffers t
                (((lookupA e.table_buffers t).getD []) ++
                  utf8Bytes (s ++ "\n"))) t).getD []).length := by
              simp only [should_flush_buffer_for, lookupA_setA_self,
                Option.getD_some, decide_eq_true_eq] at hsf
              rw [hcfg] at hsf
              rw [lookupA_setA_self]
              simpa using hsf
            refine ⟨c3inv_triggered S _ e₃ t item ?_ ?_ ?_ ?_ hflush, ?_⟩
            · exact hnodup2
            · exact fun f hf => hc.files f hf
            · exact hlive2
            · exact hS2
            · have hcfg3 := flush_table_buffer_cfg_eq _ t _ _ hflush
              exact hcfg3
        · rename_i hsf
          injection heq with he' ht'
          subst he'
          refine ⟨⟨?_, ?_⟩, rfl⟩
          · intro f hf
            simp [record_field_types] at hf
            exact hc.files f hf
          · intro u bufu hlu
            simp only [record_field_types] at hlu
            by_cases hu : u = t
            · subst hu
              rw [lookupA_setA_self] at hlu
              injection hlu with hXb
              subst hXb
              constructor
              · intro hX
                exact utf8Bytes_line_ne_nil s (List.append_eq_nil.mp hX).2
              · simp only [should_flush_buffer_for, lookupA_setA_self,
                  Option.getD_some, decide_eq_true_eq] at hsf
                rw [hcfg] at hsf
                omega
            · rw [lookupA_setA_ne _ _ _ _ hu] at hlu
              exact hc.live u bufu hlu
      · have hbn : lookupA e.table_buffers t = none := isSome_false_eq_none _ hb
        have hlk : lookupA (e.table_buffers ++ [(t, [])]) t = some [] :=
          lookupA_append_new _ _ _ hbn
        split at heq
        · rename_i hsf
          split at heq
          · simp at heq
          · rename_i e₃ hflush
            injection heq with he' ht'
            subst he'
            have hnodup2 : (keysA (setA (e.table_buffers ++ [(t, [])]) t
                (((lookupA (e.table_buffers ++ [(t, [])]) t).getD []) ++
                  utf8Bytes (s ++ "\n")))).Nodup := by
              rw [keysA_setA_present _ _ _ (by simp [hlk])]
              have hk : keysA (e.table_buffers ++ [(t, [])]) =
                  keysA e.table_buffers ++ [t] := by simp [keysA]
              rw [hk]
              simp [List.nodup_append, lookupA_none_not_mem _ _ hbn, h.nodupB]
            have hlive2 : ∀ u bufu, u ≠ t →
                lookupA (setA (e.table_buffers ++ [(t, [])]) t
                  (((lookupA (e.table_buffers ++ [(t, [])]) t).getD []) ++
                    utf8Bytes (s ++ "\n"))) u = some bufu →
                bufu ≠ [] ∧ bufu.length < S := by
              intro u bufu hu hlu
              rw [lookupA_setA_ne _ _ _ _ hu,
                lookupA_append_ne _ _ _ _ hu] at hlu
              exact hc.live u bufu hlu
            have hS2 : S ≤ ((lookupA (setA (e.table_buffers ++ [(t, [])]) t
                (((lookupA (e.table_buffers ++ [(t, [])]) t).getD []) ++
                  utf8Bytes (s ++ "\n"))) t).getD []).length := by
              simp only [should_flush_buffer_for, lookupA_setA_self,
                Option.getD_some, decide_eq_true_eq] at hsf
              rw [hcfg] at hsf
              rw [lookupA_setA_self]
              simpa using hsf
            refine ⟨c3inv_triggered S _ e₃ t item ?_ ?_ ?_ ?_ hflush, ?_⟩
            · exact hnodup2
            · exact fun f hf => hc.files f hf
            · exact hlive2
            · exact hS2
            · have hcfg3 := flush_table_buffer_cfg_eq _ t _ _ hflush
              exact hcfg3
        · rename_i hsf
          injection heq with he' ht'
          subst he'
          refine ⟨⟨?_, ?_⟩, rfl⟩
          · intro f hf
            simp [record_field_types] at hf
            exact hc.files f hf
          · intro u bufu hlu
            simp only [record_field_types] at hlu
            by_cases hu : u = t
            · subst hu
              rw [lookupA_setA_self] at hlu
              injection hlu with hXb
              subst hXb
              constructor
              · intro hX
                exact utf8Bytes_line_ne_nil s (List.append_eq_nil.mp hX).2
              · simp only [should_flush_buffer_for, lookupA_setA_self,
                  Option.getD_some, decide_eq_true_eq] at hsf
                rw [hcfg] at hsf
                omega
            · rw [lookupA_setA_ne _ _ _ _ hu,
                lookupA_append_ne _ _ _ _ hu] at hlu
              exact hc.live u bufu hlu

/-- The invariant holds after any error-free export-only trace. -/
theorem c3inv_run (items : List (PyObj × List (String × String))) :
    ∀ e S, TraceInv e → C3Inv S e → e.cfg.max_file_size = S →
      (runOps e (exportsOf items)).2 = [] →
      C3Inv S (runOps e (exportsOf items)).1 ∧
        ((runOps e (exportsOf items)).1).cfg = e.cfg := by
  induction items with
  | nil =>
    intro e S h hc hcfg hok
    exact ⟨hc, rfl⟩
  | cons p rest ih =>
    intro e S h hc hcfg
    simp only [exportsOf, List.map_cons, runOps, stepOp]
    rcases he : export_item e p.1 p.2 with ⟨e₁, r⟩
    cases r with
    | error er =>
      intro hok
      simp at hok
    | ok t₁ =>
      intro hok
      obtain ⟨hc₁, hcfg₁⟩ := c3inv_export S e e₁ p.1 p.2 t₁ h hc hcfg he
      have h₁ : TraceInv e₁ := by
        have hh := traceInv_export e p.1 p.2 h
        rw [he] at hh
        exact hh
      have hok₁ : (runOps e₁ (exportsOf rest)).2 = [] := hok
      obtain ⟨ha, hb2⟩ := ih e₁ S h₁ hc₁
        (by rw [hcfg₁]; exact hcfg) hok₁
      exact ⟨ha, hb2.trans hcfg₁⟩

theorem filter_append_singleton_le {α : Type} (p : α → Bool) (l : List α)
    (a : α) : ((l ++ [a]).filter p).length ≤ (l.filter p).length + 1 := by
  rw [List.filter_append, List.length_append]
  have h := List.length_filter_le p [a]
  simp at h
  omega

/-- One flush adds at most one file to any destination. -/
theorem flush_flushedFor_le (e : Exporter) (u t : String) :
    (flushedFor ((flush_table_buffer e u).1) t).length ≤
      (flushedFor e t).length + 1 := by
  rcases flush_table_buffer_cases e u with ⟨hb, hres⟩ | ⟨hb, hres⟩ |
    ⟨buf, ref, p, hb, hres⟩
  · rw [hres]
    exact Nat.le_succ _
  · rw [hres]
    exact Nat.le_succ _
  · rw [hres]
    exact filter_append_singleton_le _ _ _

/-- Flushing one destination leaves every other destination's file list
alone. -/
theorem flush_flushedFor_ne (e : Exporter) (u t : String) (h : u ≠ t) :
    flushedFor ((flush_table_buffer e u).1) t = flushedFor e t := by
  rcases flush_table_buffer_cases e u with ⟨hb, hres⟩ | ⟨hb, hres⟩ |
    ⟨buf, ref, p, hb, hres⟩
  · have hh := congrArg (fun x => flushedFor x t) hres
    exact hh
  · have hh := congrArg (fun x => flushedFor x t) hres
    exact hh
  · rw [hres]
    have hne : (u == t) = false := by simp [h]
    simp [flushedFor, List.filter_append, hne]

/-- A `flush_all` pass over keys not containing `t` does not touch `t`'s
file list. -/
theorem flushKeys_flushedFor_unchanged (ks : List String) (t : String) :
    ∀ e, t ∉ ks →
      flushedFor ((flushKeys e ks).1) t = flushedFor e t := by
  induction ks with
  | nil => intro e _; rfl
  | cons u us ih =>
    intro e hnot
    have hnu : u ≠ t := fun h => hnot (by simp [h])
    have hnus : t ∉ us := fun h => hnot (by simp [h])
    simp only [flushKeys]
    rcases hf : flush_table_buffer e u with ⟨e', r⟩
    have h1 := flush_flushedFor_ne e u t hnu
    rw [hf] at h1
    cases r with
    | none => exact (ih e' hnus).trans h1
    | some er => exact h1

/-- A `flush_all` pass over distinct keys adds at most one file per
destination. -/
theorem flushKeys_flushedFor_le (ks : List String) :
    ∀ e t, ks.Nodup →
      (flushedFor ((flushKeys e ks).1) t).length ≤
        (flushedFor e t).length + 1 := by
  induction ks with
  | nil => intro e t _; exact Nat.le_succ _
  | cons u us ih =>
    intro e t hnd
    have hnd' : us.Nodup := (List.nodup_cons.mp hnd).2
    have hnmem : u ∉ us := (List.nodup_cons.mp hnd).1
    simp only [flushKeys]
    rcases hf : flush_table_buffer e u with ⟨e', r⟩
    have h1 := flush_flushedFor_le e u t
    rw [hf] at h1
    cases r with
    | some er => exact h1
    | none =>
      by_cases hu : u = t
      · subst hu
        have h2 := flushKeys_flushedFor_unchanged us u e' hnmem
        rw [h2]
        exact h1
      · have hne := flush_flushedFor_ne e u t hu
        rw [hf] at hne
        have hne' : flushedFor e' t = flushedFor e t := hne
        have h3 := ih e' t hnd'
        rw [hne'] at h3
        exact h3

/-- Flushing never appends records. -/
theorem flushKeys_appendLog (ks : List String) : ∀ e,
    ((flushKeys e ks).1).appendLog = e.appendLog := by
  induction ks with
  | nil => intro e; rfl
  | cons u us ih =>
    intro e
    simp only [flushKeys]
    rcases hf : flush_table_buffer e u with ⟨e', r⟩
    have h1 : e'.appendLog = e.appendLog :=
      flush_table_buffer_appendLog_eq e u e' r hf
    cases r with
    | none => exact (ih e').trans h1
    | some er => exact h1

/-- After an error-free `flush_all` pass, a destination that was in the
key snapshot (or had no buffer to begin with) has no open buffer. -/
theorem flushKeys_none_lookup (ks : List String) : ∀ e t, TraceInv e →
    (flushKeys e ks).2 = none →
    (t ∈ ks ∨ lookupA e.table_buffers t = none) →
    lookupA ((flushKeys e ks).1).table_buffers t = none := by
  induction ks with
  | nil =>
    intro e t _ _ hm
    rcases hm with hm | hm
    · simp at hm
    · exact hm
  | cons u us ih =>
    intro e t hTI hok hm
    simp only [flushKeys] at hok ⊢
    revert hok
    rcases hf : flush_table_buffer e u with ⟨e', r⟩
    intro hok
    cases r with
    | some er => simp at hok
    | none =>
      obtain ⟨buf, ref, p, hbuf, he'⟩ := flush_none_cases e u e' hf
      have hTI' : TraceInv e' := by
        have hh := traceInv_flush e u hTI
        rw [hf] at hh
        exact hh
      have htb : e'.table_buffers = eraseA e.table_buffers u := by rw [he']
      rcases hm with hm | hm
      · rcases List.mem_cons.mp hm with hm1 | hm1
        · subst hm1
          refine ih e' t hTI' hok (Or.inr ?_)
          rw [htb]
          exact lookupA_eraseA_self _ _ hTI.nodupB
        · exact ih e' t hTI' hok (Or.inl hm1)
      · refine ih e' t hTI' hok (Or.inr ?_)
        rw [htb]
        exact lookupA_eraseA_none _ _ _ hm

/-- Splitting a trace: the final state threads through, and an error-free
run means both halves were error-free. -/
theorem runOps_append_state (l1 l2 : List Op) : ∀ e,
    (runOps e (l1 ++ l2)).1 = (runOps (runOps e l1).1 l2).1 ∧
    ((runOps e (l1 ++ l2)).2 = [] →
      (runOps e l1).2 = [] ∧ (runOps (runOps e l1).1 l2).2 = []) := by
  induction l1 with
  | nil => intro e; exact ⟨rfl, fun h => ⟨rfl, h⟩⟩
  | cons op l1 ih =>
    intro e
    simp only [List.cons_append, runOps]
    rcases hs : stepOp e op with ⟨e₁, r⟩
    cases r with
    | none => exact ih e₁
    | some er =>
      obtain ⟨ih1, ih2⟩ := ih e₁
      refine ⟨?_, ?_⟩
      · simpa using ih1
      · intro h
        simp at h
  
/-- A single trailing `flush_all` step. -/
theorem runOps_flushAll (e : Exporter) :
    (runOps e [Op.flushAllOp]).1 = (flushKeys e (keysA e.table_buffers)).1 ∧
    ((runOps e [Op.flushAllOp]).2 = [] →
      (flushKeys e (keysA e.table_buffers)).2 = none) := by
  simp only [runOps, stepOp, flush_all_table_buffers]
  rcases hf : flushKeys e (keysA e.table_buffers) with ⟨e', r⟩
  cases r with
  | none => exact ⟨rfl, fun _ => rfl⟩
  | some er => exact ⟨rfl, fun h => absurd h (by simp)⟩

/-- The staged-file count bound for a single destination, given the
export-phase invariant and an error-free final `flush_all`. -/
theorem c3_final_bound (S : Nat) (E1 : Exporter) (t : String) (hS : 1 ≤ S)
    (hTI1 : TraceInv E1) (hC3 : C3Inv S E1)
    (hokF : (flushKeys E1 (keysA E1.table_buffers)).2 = none) :
    (flushedFor ((flushKeys E1 (keysA E1.table_buffers)).1) t).length ≤
      (((appendedFor E1 t).flatten).length + S - 1) / S ∧
    (1 ≤ ((appendedFor E1 t).flatten).length →
      1 ≤ (flushedFor ((flushKeys E1 (keysA E1.table_buffers)).1) t).length) := by
  have hTIfin : TraceInv ((flushKeys E1 (keysA E1.table_buffers)).1) :=
    traceInv_flushKeys _ _ hTI1
  have hconcat := hTI1.concat t
  have hT1 : ((appendedFor E1 t).flatten).length =
      (flushedBytes E1 t).length + (bufferBytes E1 t).length := by
    rw [← hconcat, List.length_append]
  have hfb : (flushedFor E1 t).length * S ≤ (flushedBytes E1 t).length := by
    have hlow := flushLog_flatten_lower S (flushedFor E1 t)
      (fun f hf => hC3.files f (by
        have hff := hf
        simp only [flushedFor, List.mem_filter] at hff
        exact hff.1))
    simpa [flushedBytes] using hlow
  rcases hbe : lookupA E1.table_buffers t with _ | buf
  · have hnot : t ∉ keysA E1.table_buffers := lookupA_none_not_mem _ _ hbe
    have hsame : flushedFor ((flushKeys E1 (keysA E1.table_buffers)).1) t =
        flushedFor E1 t :=
      flushKeys_flushedFor_unchanged _ t E1 hnot
    have hbb : (bufferBytes E1 t).length = 0 := by simp [bufferBytes, hbe]
    constructor
    · rw [hsame]
      apply count_le_ceil_of_mul_le _ _ _ hS
      omega
    · intro hTpos
      rw [hsame]
      by_contra hcon
      have hzero : (flushedFor E1 t).length = 0 := by omega
      have hnil : flushedFor E1 t = [] := List.length_eq_zero.mp hzero
      have hfz : (flushedBytes E1 t).length = 0 := by
        simp [flushedBytes, hnil]
      omega
  · have hmem : t ∈ keysA E1.table_buffers :=
      lookupA_isSome_mem _ _ (by simp [hbe])
    have hle : (flushedFor ((flushKeys E1 (keysA E1.table_buffers)).1) t).length ≤
        (flushedFor E1 t).length + 1 :=
      flushKeys_flushedFor_le _ E1 t hTI1.nodupB
    have hlv := hC3.live t buf hbe
    have hbuf1 : 1 ≤ (bufferBytes E1 t).length := by
      have h9 : bufferBytes E1 t = buf := by simp [bufferBytes, hbe]
      rw [h9]
      exact List.length_pos.mpr hlv.1
    constructor
    · have hkey : (flushedFor E1 t).length * S + 1 ≤
          ((appendedFor E1 t).flatten).length := by omega
      have h10 := count_succ_le_ceil _ _ _ hS hkey
      exact le_trans hle h10
    · intro hTpos
      have hcl : lookupA ((flushKeys E1 (keysA E1.table_buffers)).1).table_buffers t
          = none :=
        flushKeys_none_lookup _ E1 t hTI1 hokF (Or.inl hmem)
      have hconcat2 := hTIfin.concat t
      have hbbf : (bufferBytes ((flushKeys E1 (keysA E1.table_buffers)).1) t).length
          = 0 := by
        simp [bufferBytes, hcl]
      have hApp := flushKeys_appendLog (keysA E1.table_buffers) E1
      have hAppF : appendedFor ((flushKeys E1 (keysA E1.table_buffers)).1) t =
          appendedFor E1 t := by
        unfold appendedFor
        rw [hApp]
      have hT2 : ((appendedFor ((flushKeys E1 (keysA E1.table_buffers)).1) t).flatten).length =
          (flushedBytes ((flushKeys E1 (keysA E1.table_buffers)).1) t).length +
            (bufferBytes ((flushKeys E1 (keysA E1.table_buffers)).1) t).length := by
        rw [← hconcat2, List.length_append]
      rw [hAppF] at hT2
      by_contra hcon
      have hzero : (flushedFor ((flushKeys E1 (keysA E1.table_buffers)).1) t).length
          = 0 := by omega
      have hnil := List.length_eq_zero.mp hzero
      have hfz : (flushedBytes ((flushKeys E1 (keysA E1.table_buffers)).1) t).length
          = 0 := by
        simp [flushedBytes, hnil]
      omega

/-- C3 (amended).  A buffer becomes eligible for flush exactly when its
byte size has reached the threshold `S`; in an error-free trace of
ingests followed by the final `flush_all`, every file flushed during the
ingest phase holds at least `S` bytes (a threshold flush drains the whole
buffer, covering exactly the records appended so far); consequently, for
every destination with total appended size `T`, the number of staged
files is at most `ceil(T/S)` — not exactly `ceil(T/S)`, which the code
does not satisfy — and at least one file is produced whenever `T ≥ 1`. -/
theorem threshold_flush_file_count_bound (cfg : Config)
    (items : List (PyObj × List (String × String))) (t : String)
    (hS : 1 ≤ cfg.max_file_size)
    (hok : (runOps (initExporter cfg [])
      (exportsOf items ++ [Op.flushAllOp])).2 = []) :
    (∀ e' u, should_flush_buffer_for e' u = true ↔
      e'.cfg.max_file_size ≤ (bufferBytes e' u).length) ∧
    (∀ f ∈ ((runOps (initExporter cfg []) (exportsOf items)).1).flushLog,
      cfg.max_file_size ≤ f.content.length) ∧
    (flushedFor (runInit cfg [] (exportsOf items ++ [Op.flushAllOp])) t).length ≤
      ((((appendedFor (runInit cfg []
          (exportsOf items ++ [Op.flushAllOp])) t).flatten).length
        + cfg.max_file_size - 1) / cfg.max_file_size) ∧
    (1 ≤ ((appendedFor (runInit cfg []
        (exportsOf items ++ [Op.flushAllOp])) t).flatten).length →
      1 ≤ (flushedFor (runInit cfg []
        (exportsOf items ++ [Op.flushAllOp])) t).length) := by
  obtain ⟨hsp1, hsp2⟩ := runOps_append_state (exportsOf items) [Op.flushAllOp]
    (initExporter cfg [])
  obtain ⟨hok1, hok2⟩ := hsp2 hok
  obtain ⟨hfa1, hfa2⟩ :=
    runOps_flushAll ((runOps (initExporter cfg []) (exportsOf items)).1)
  have hokF := hfa2 hok2
  have hfin : runInit cfg [] (exportsOf items ++ [Op.flushAllOp]) =
      (flushKeys ((runOps (initExporter cfg []) (exportsOf items)).1)
        (keysA ((runOps (initExporter cfg [])
          (exportsOf items)).1).table_buffers)).1 := hsp1.trans hfa1
  rw [hfin]
  have hTI1 : TraceInv ((runOps (initExporter cfg []) (exportsOf items)).1) :=
    traceInv_run _ _ (traceInv_init cfg [])
  obtain ⟨hC3, hcfg1⟩ := c3inv_run items (initExporter cfg [])
    cfg.max_file_size (traceInv_init cfg []) (c3inv_init _ _ _) rfl hok1
  have hApp := flushKeys_appendLog
    (keysA ((runOps (initExporter cfg []) (exportsOf items)).1).table_buffers)
    ((runOps (initExporter cfg []) (exportsOf items)).1)
  have hAppF : appendedFor (flushKeys
      ((runOps (initExporter cfg []) (exportsOf items)).1)
      (keysA ((runOps (initExporter cfg [])
        (exportsOf items)).1).table_buffers)).1 t =
      appendedFor ((runOps (initExporter cfg []) (exportsOf items)).1) t := by
    unfold appendedFor
    rw [hApp]
  rw [hAppF]
  obtain ⟨hbound, hpos⟩ := c3_final_bound cfg.max_file_size
    ((runOps (initExporter cfg []) (exportsOf items)).1) t hS hTI1 hC3 hokF
  exact ⟨fun e' u => by simp [should_flush_buffer_for, bufferBytes],
    hC3.files, hbound, hpos⟩

theorem threshold_flush_file_count_bound_witness :
    (1 ≤ c3Cfg.max_file_size ∧
      (runOps (initExporter c3Cfg [])
        (exportsOf c3Items ++ [Op.flushAllOp])).2 = []) ∧
    ((∀ e' u, should_flush_buffer_for e' u = true ↔
        e'.cfg.max_file_size ≤ (bufferBytes e' u).length) ∧
      (∀ f ∈ ((runOps (initExporter c3Cfg []) (exportsOf c3Items)).1).flushLog,
        c3Cfg.max_file_size ≤ f.content.length) ∧
      (flushedFor (runInit c3Cfg []
          (exportsOf c3Items ++ [Op.flushAllOp])) "t").length ≤
        ((((appendedFor (runInit c3Cfg []
            (exportsOf c3Items ++ [Op.flushAllOp])) "t").flatten).length
          + c3Cfg.max_file_size - 1) / c3Cfg.max_file_size) ∧
      (1 ≤ ((appendedFor (runInit c3Cfg []
          (exportsOf c3Items ++ [Op.flushAllOp])) "t").flatten).length →
        1 ≤ (flushedFor (runInit c3Cfg []
          (exportsOf c3Items ++ [Op.flushAllOp])) "t").length)) :=
  ⟨⟨by decide, by decide⟩,
    threshold_flush_file_count_bound c3Cfg c3Items "t" (by decide) (by decide)⟩

/-! ## Claim C8 — `normalize_identifier` against the spec's algorithm -/

theorem dropWhile_all_false {α : Type} (p : α → Bool) (l : List α)
    (h : ∀ c ∈ l, p c = false) : l.dropWhile p = l := by
  cases l with
  | nil => rfl
  | cons a l =>
    rw [List.dropWhile_cons, h a (by simp)]
    simp

theorem dropWhile_append_of_mem {α : Type} (p : α → Bool) (l w : List α)
    (h : ∃ x ∈ l, p x = false) : (l ++ w).dropWhile p = l.dropWhile p ++ w := by
  induction l with
  | nil =>
    obtain ⟨x, hx, _⟩ := h
    simp at hx
  | cons a l ih =>
    rw [List.cons_append, List.dropWhile_cons, List.dropWhile_cons]
    cases hpa : p a with
    | false => simp
    | true =>
      obtain ⟨x, hx, hpx⟩ := h
      have hxl : x ∈ l := by
        rcases List.mem_cons.mp hx with h1 | h1
        · subst h1
          rw [hpa] at hpx
          exact absurd hpx (by simp)
        · exact h1
      simp [ih ⟨x, hxl, hpx⟩]

theorem dropWhile_head_false {α : Type} (p : α → Bool) :
    ∀ (l : List α) (c : α) (r : List α), l.dropWhile p = c :: r →
      p c = false := by
  intro l
  induction l with
  | nil =>
    intro c r h
    simp at h
  | cons a l ih =>
    intro c r h
    rw [List.dropWhile_cons] at h
    cases hpa : p a with
    | true =>
      rw [hpa] at h
      simp at h
      exact ih c r h
    | false =>
      rw [hpa] at h
      simp at h
      obtain ⟨h1, h2⟩ := h
      subst h1
      exact hpa

theorem takeWhile_mem {α : Type} (p : α → Bool) :
    ∀ (l : List α) (x : α), x ∈ l.takeWhile p → p x = true := by
  intro l
  induction l with
  | nil =>
    intro x hx
    simp at hx
  | cons a l ih =>
    intro x hx
    rw [List.takeWhile_cons] at hx
    cases hpa : p a with
    | false =>
      rw [hpa] at hx
      simp at hx
    | true =>
      rw [hpa] at hx
      simp at hx
      rcases hx with h1 | h1
      · subst h1
        exact hpa
      · exact ih x h1

/-- The in-run scan equals the fresh scan after skipping the rest of the
run. -/
theorem collapseRunsAux_true (l : List Char) :
    collapseRunsAux true l =
      collapseRunsAux false (l.dropWhile (fun c => !isKeptChar c)) := by
  induction l with
  | nil => rfl
  | cons c cs ih =>
    rw [List.dropWhile_cons]
    by_cases hc : isKeptChar c = true
    · simp [collapseRunsAux, hc]
    · have hc' : isKeptChar c = false := by
        revert hc
        cases isKeptChar c <;> simp
      simp [collapseRunsAux, hc', ih]

/-- The scan copies a kept-character block verbatim. -/
theorem collapseRunsAux_kept_front (t r : List Char)
    (h : ∀ c ∈ t, isKeptChar c = true) :
    collapseRunsAux false (t ++ r) = t ++ collapseRunsAux false r := by
  induction t with
  | nil => rfl
  | cons c t' ih =>
    rw [List.cons_append]
    simp only [collapseRunsAux]
    rw [if_pos (h c (by simp))]
    rw [ih (fun x hx => h x (by simp [hx]))]
    rfl

/-- Tokenization ignores a leading run of non-kept characters. -/
theorem specTokens_dropWhile (l : List Char) :
    specTokens (l.dropWhile (fun c => !isKeptChar c)) = specTokens l := by
  induction l with
  | nil => rfl
  | cons c cs ih =>
    rw [List.dropWhile_cons]
    by_cases hc : isKeptChar c = true
    · simp [hc]
    · have hc' : isKeptChar c = false := by
        revert hc
        cases isKeptChar c <;> simp
      simp [specTokens, hc', ih]

theorem trimSpaces_cons_space (x : List Char) :
    trimSpaces (' ' :: x) = trimSpaces x := by
  simp [trimSpaces, List.dropWhile_cons]

theorem trimSpaces_spaceless (t : List Char)
    (h : ∀ c ∈ t, ¬(c = ' ')) : trimSpaces t = t := by
  have h1 : t.dropWhile (fun c => decide (c = ' ')) = t :=
    dropWhile_all_false _ t (fun c hc => by simp [h c hc])
  have h2 : t.reverse.dropWhile (fun c => decide (c = ' ')) = t.reverse :=
    dropWhile_all_false _ _ (fun c hc => by
      simp [h c (List.mem_reverse.mp hc)])
  simp only [trimSpaces]
  rw [h1, h2, List.reverse_reverse]

theorem trimSpaces_append_space (t : List Char) (ht : t ≠ [])
    (h : ∀ c ∈ t, ¬(c = ' ')) : trimSpaces (t ++ [' ']) = t := by
  have h1 : (t ++ [' ']).dropWhile (fun c => decide (c = ' ')) =
      t ++ [' '] := by
    cases t with
    | nil => exact absurd rfl ht
    | cons c t' =>
      rw [List.cons_append, List.dropWhile_cons]
      simp [h c (by simp)]
  have h2 : t.reverse.dropWhile (fun c => decide (c = ' ')) = t.reverse :=
    dropWhile_all_false _ _ (fun c hc => by
      simp [h c (List.mem_reverse.mp hc)])
  simp only [trimSpaces]
  rw [h1, List.reverse_append]
  simp [List.dropWhile_cons, h2]

/-- Trimming around a separating space before a block that starts with a
non-space character. -/
theorem trimSpaces_token_sep (t z : List Char) (ht : t ≠ [])
    (hts : ∀ c ∈ t, ¬(c = ' '))
    (hz : ∃ d r, z = d :: r ∧ ¬(d = ' ')) :
    trimSpaces (t ++ ' ' :: z) = t ++ ' ' :: trimSpaces z := by
  obtain ⟨d, r, rfl, hd⟩ := hz
  have h1 : (t ++ ' ' :: d :: r).dropWhile (fun c => decide (c = ' ')) =
      t ++ ' ' :: d :: r := by
    cases t with
    | nil => exact absurd rfl ht
    | cons c t' =>
      rw [List.cons_append, List.dropWhile_cons]
      simp [hts c (by simp)]
  have h2 : (d :: r).dropWhile (fun c => decide (c = ' ')) = d :: r := by
    rw [List.dropWhile_cons]
    simp [hd]
  have hrev : (t ++ ' ' :: d :: r).reverse =
      (d :: r).reverse ++ ' ' :: t.reverse := by
    simp
  have h3 := dropWhile_append_of_mem (fun c => decide (c = ' '))
    ((d :: r).reverse) (' ' :: t.reverse) ⟨d, by simp, by simp [hd]⟩
  simp only [trimSpaces]
  rw [h1, h2, hrev, h3]
  simp [List.reverse_append]

theorem intercalate_one {α : Type} (s a : List α) :
    List.intercalate s [a] = a := by
  simp [List.intercalate]

theorem intercalate_cons_cons {α : Type} (s a b : List α)
    (r : List (List α)) :
    List.intercalate s (a :: b :: r) = a ++ s ++ List.intercalate s (b :: r) := by
  simp [List.intercalate, List.intersperse]

/-- Collapse-then-trim equals joining the kept-character tokens with
single spaces. -/
theorem collapse_spec_aux : ∀ (n : Nat) (l : List Char), l.length ≤ n →
    trimSpaces (collapseRunsAux false l) =
      List.intercalate [' '] (specTokens l) := by
  intro n
  induction n with
  | zero =>
    intro l hl
    have hnil : l = [] := List.eq_nil_of_length_eq_zero (Nat.le_zero.mp hl)
    subst hnil
    simp [specTokens, trimSpaces, collapseRunsAux, List.intercalate]
  | succ n ih =>
    intro l hl
    cases l with
    | nil => simp [specTokens, trimSpaces, collapseRunsAux, List.intercalate]
    | cons c cs =>
      by_cases hc : isKeptChar c = true
      · have hst : specTokens (c :: cs) =
            (c :: cs.takeWhile isKeptChar) ::
              specTokens (cs.dropWhile isKeptChar) := by
          simp [specTokens, hc]
        have htk : ∀ x ∈ c :: cs.takeWhile isKeptChar, isKeptChar x = true := by
          intro x hx
          rcases List.mem_cons.mp hx with h1 | h1
          · subst h1; exact hc
          · exact takeWhile_mem _ _ _ h1
        have hts : ∀ x ∈ c :: cs.takeWhile isKeptChar, ¬(x = ' ') := by
          intro x hx h'
          have hk := htk x hx
          rw [h'] at hk
          exact absurd hk (by decide)
        have hl2 : c :: cs =
            (c :: cs.takeWhile isKeptChar) ++ cs.dropWhile isKeptChar := by
          rw [List.cons_append, List.takeWhile_append_dropWhile]
        rw [hst, hl2, collapseRunsAux_kept_front _ _ htk]
        cases hdw : cs.dropWhile isKeptChar with
        | nil =>
          simp only [collapseRunsAux, List.append_nil]
          rw [trimSpaces_spaceless _ hts]
          simp [specTokens, List.intercalate, List.intersperse]
        | cons d r' =>
          have hd : isKeptChar d = false := dropWhile_head_false _ _ _ _ hdw
          have hstep : collapseRunsAux false (d :: r') =
              ' ' :: collapseRunsAux false
                (r'.dropWhile (fun x => !isKeptChar x)) := by
            simp [collapseRunsAux, hd, collapseRunsAux_true]
          rw [hstep]
          have hsp1 : specTokens (d :: r') = specTokens r' := by
            simp [specTokens, hd]
          have hsp2 : specTokens r' =
              specTokens (r'.dropWhile (fun x => !isKeptChar x)) :=
            (specTokens_dropWhile r').symm
          rw [hsp1, hsp2]
          cases hm : r'.dropWhile (fun x => !isKeptChar x) with
          | nil =>
            simp only [collapseRunsAux]
            rw [trimSpaces_append_space _ (by simp) hts]
            simp [specTokens, List.intercalate, List.intersperse]
          | cons m₀ m' =>
            have hm₀ : isKeptChar m₀ = true := by
              have h9 := dropWhile_head_false
                (fun x => !isKeptChar x) r' m₀ m' hm
              simpa using h9
            have hlen : (m₀ :: m').length ≤ n := by
              have h1 := dropWhile_length_le isKeptChar cs
              rw [hdw] at h1
              have h2 := dropWhile_length_le (fun x => !isKeptChar x) r'
              rw [hm] at h2
              simp only [List.length_cons] at h1 h2 hl ⊢
              omega
            have hih := ih (m₀ :: m') hlen
            have hztail : collapseRunsAux false (m₀ :: m') =
                m₀ :: collapseRunsAux false m' := by
              simp only [collapseRunsAux]
              rw [if_pos hm₀]
            have hz : ∃ zd zr,
                collapseRunsAux false (m₀ :: m') = zd :: zr ∧ ¬(zd = ' ') := by
              refine ⟨m₀, collapseRunsAux false m', hztail, ?_⟩
              intro h'
              rw [h'] at hm₀
              exact absurd hm₀ (by decide)
            rw [trimSpaces_token_sep _ _ (by simp) hts hz, hih]
            have hne : specTokens (m₀ :: m') ≠ [] := by
              simp [specTokens, hm₀]
            cases hsm : specTokens (m₀ :: m') with
            | nil => exact absurd hsm hne
            | cons tk0 toks' =>
              rw [intercalate_cons_cons]
              simp
      · have hc' : isKeptChar c = false := by
          revert hc
          cases isKeptChar c <;> simp
        have hstep : collapseRunsAux false (c :: cs) =
            ' ' :: collapseRunsAux false
              (cs.dropWhile (fun x => !isKeptChar x)) := by
          simp [collapseRunsAux, hc', collapseRunsAux_true]
        have hst : specTokens (c :: cs) = specTokens cs := by
          simp [specTokens, hc']
        rw [hstep, hst, trimSpaces_cons_space, ← specTokens_dropWhile cs]
        refine ih _ ?_
        have h1 := dropWhile_length_le (fun x => !isKeptChar x) cs
        simp only [List.length_cons] at hl
        omega

/-- Collapse-then-trim, as used by `normalize_identifier`, equals the
token join of the reference definition. -/
theorem collapse_spec (l : List Char) :
    trimSpaces (collapseRunsAux false l) =
      List.intercalate [' '] (specTokens l) :=
  collapse_spec_aux l.length l (le_refl _)

/-- Every token is a nonempty run of kept characters. -/
theorem specTokens_props : ∀ (n : Nat) (l : List Char), l.length ≤ n →
    ∀ tk ∈ specTokens l, tk ≠ [] ∧ ∀ c ∈ tk, isKeptChar c = true := by
  intro n
  induction n with
  | zero =>
    intro l hl tk htk
    have hnil : l = [] := List.eq_nil_of_length_eq_zero (Nat.le_zero.mp hl)
    subst hnil
    simp [specTokens] at htk
  | succ n ih =>
    intro l hl tk htk
    cases l with
    | nil => simp [specTokens] at htk
    | cons c cs =>
      by_cases hc : isKeptChar c = true
      · rw [show specTokens (c :: cs) =
            (c :: cs.takeWhile isKeptChar) ::
              specTokens (cs.dropWhile isKeptChar) from by
          simp [specTokens, hc]] at htk
        rcases List.mem_cons.mp htk with h1 | h1
        · subst h1
          refine ⟨by simp, ?_⟩
          intro x hx
          rcases List.mem_cons.mp hx with h2 | h2
          · subst h2
            exact hc
          · exact takeWhile_mem _ _ _ h2
        · refine ih (cs.dropWhile isKeptChar) ?_ tk h1
          have h2 := dropWhile_length_le isKeptChar cs
          simp only [List.length_cons] at hl
          omega
      · have hc' : isKeptChar c = false := by
          revert hc
          cases isKeptChar c <;> simp
        rw [show specTokens (c :: cs) = specTokens cs from by
          simp [specTokens, hc']] at htk
        refine ih cs ?_ tk htk
        simp only [List.length_cons] at hl
        omega

/-- The underscore scan copies a space-free block verbatim. -/
theorem underscoreAux_nospace_front (t x : List Char)
    (h : ∀ c ∈ t, ¬(c = ' ')) :
    underscoreAux false (t ++ x) = t ++ underscoreAux false x := by
  induction t with
  | nil => rfl
  | cons c t' ih =>
    rw [List.cons_append]
    simp only [underscoreAux]
    rw [if_neg (h c (by simp))]
    rw [ih (fun y hy => h y (by simp [hy]))]
    rfl

/-- Off a space run, the two scan flags agree. -/
theorem underscoreAux_true_head (y : List Char)
    (h : ∀ d r, y = d :: r → ¬(d = ' ')) :
    underscoreAux true y = underscoreAux false y := by
  cases y with
  | nil => rfl
  | cons d r =>
    simp only [underscoreAux]
    rw [if_neg (h d r rfl), if_neg (h d r rfl)]

/-- Replacing single separating spaces between space-free tokens with
underscores equals joining them with underscores. -/
theorem underscore_intercalate : ∀ (toks : List (List Char)),
    (∀ tk ∈ toks, tk ≠ [] ∧ ∀ c ∈ tk, isKeptChar c = true) →
    underscoreAux false (List.intercalate [' '] toks) =
      List.intercalate ['_'] toks := by
  intro toks
  induction toks with
  | nil =>
    intro h
    simp [List.intercalate, underscoreAux]
  | cons tk rest ih =>
    intro h
    have htk := h tk (by simp)
    have hts : ∀ c ∈ tk, ¬(c = ' ') := by
      intro c hc h'
      have hk := htk.2 c hc
      rw [h'] at hk
      exact absurd hk (by decide)
    cases rest with
    | nil =>
      rw [intercalate_one, intercalate_one]
      have h1 := underscoreAux_nospace_front tk [] hts
      simpa [underscoreAux] using h1
    | cons r₁ r' =>
      rw [intercalate_cons_cons, intercalate_cons_cons]
      rw [List.append_assoc]
      rw [underscoreAux_nospace_front tk _ hts]
      have hX : underscoreAux false
          ([' '] ++ List.intercalate [' '] (r₁ :: r')) =
          '_' :: underscoreAux true (List.intercalate [' '] (r₁ :: r')) := by
        rw [List.singleton_append]
        simp only [underscoreAux]
        simp
      rw [hX]
      have hhead : ∀ d r, List.intercalate [' '] (r₁ :: r') = d :: r →
          ¬(d = ' ') := by
        intro d r hdr
        obtain ⟨hne1, hkept1⟩ := h r₁ (by simp)
        cases hr₁c : r₁ with
        | nil => exact absurd hr₁c hne1
        | cons a as =>
          rw [hr₁c] at hdr
          cases hr' : r' with
          | nil =>
            rw [hr'] at hdr
            rw [intercalate_one] at hdr
            injection hdr with h1 h2
            subst h1
            intro hsp
            have hk := hkept1 a (by rw [hr₁c]; exact List.mem_cons_self _ _)
            rw [hsp] at hk
            exact absurd hk (by decide)
          | cons b bs =>
            rw [hr'] at hdr
            rw [intercalate_cons_cons, List.append_assoc,
              List.cons_append] at hdr
            injection hdr with h1 h2
            subst h1
            intro hsp
            have hk := hkept1 a (by rw [hr₁c]; exact List.mem_cons_self _ _)
            rw [hsp] at hk
            exact absurd hk (by decide)
      rw [underscoreAux_true_head _ hhead]
      rw [ih (fun x hx => h x (by simp [hx]))]
      simp

/-- Joining nonempty tokens is nonempty. -/
theorem intercalate_space_ne_nil (toks : List (List Char))
    (h : ∀ tk ∈ toks, tk ≠ []) (hne : toks ≠ []) :
    List.intercalate [' '] toks ≠ [] := by
  cases toks with
  | nil => exact absurd rfl hne
  | cons tk rest =>
    have h1 := h tk (by simp)
    cases htk : tk with
    | nil => exact absurd htk h1
    | cons a as =>
      cases rest with
      | nil =>
        rw [intercalate_one]
        simp
      | cons b r =>
        rw [intercalate_cons_cons]
        simp

/-- The scan implementation equals the token join over the source's
kept class: collapsing runs outside the class to a single space, trimming
and replacing internal space runs by underscores is joining the maximal
kept-character tokens with underscores; the `_empty_` fallback and the
leading-underscore guard are shared. -/
theorem normalize_identifier_tokens_eq (value : String) :
    normalize_identifier value = normalizeIdentifierTokens value := by
  have hA := collapse_spec value.data
  simp only [normalize_identifier, normalizeIdentifierTokens]
  rw [hA]
  cases htk : specTokens value.data with
  | nil =>
    rw [if_pos (by simp [List.intercalate])]
  | cons tk rest =>
    have hprops := specTokens_props (value.data.length) value.data (le_refl _)
    rw [htk] at hprops
    have hne : List.intercalate [' '] (tk :: rest) ≠ [] :=
      intercalate_space_ne_nil _ (fun x hx => (hprops x hx).1) (by simp)
    rw [if_neg hne]
    rw [underscore_intercalate _ hprops]

/-- No extra-range membership below the smallest range start. -/
theorem inRanges_false_of_lt (rs : List (Nat × Nat)) (n : Nat)
    (h : ∀ p ∈ rs, n < p.1) : inRanges rs n = false := by
  simp only [inRanges, List.any_eq_false]
  intro p hp
  have h1 : ¬(p.1 ≤ n) := Nat.not_le.mpr (h p hp)
  simp [h1]

/-- On ASCII characters the source's kept class is the specification's
stated class. -/
theorem isKeptChar_ascii (c : Char) (h : c.toNat < 128) :
    isKeptChar c = specKeptChar c := by
  have hall : ∀ p ∈ extraKeptRanges, 128 ≤ p.1 := by decide
  have h1 : inRanges extraKeptRanges c.toNat = false := by
    apply inRanges_false_of_lt
    intro p hp
    have h2 := hall p hp
    omega
  simp [isKeptChar, h1]

/-- On ASCII characters the source's leading class is the specification's
stated class. -/
theorem isLeadChar_ascii (c : Char) (h : c.toNat < 128) :
    isLeadChar c = specLeadChar c := by
  have hall : ∀ p ∈ extraLeadRanges, 128 ≤ p.1 := by decide
  have h1 : inRanges extraLeadRanges c.toNat = false := by
    apply inRanges_false_of_lt
    intro p hp
    have h2 := hall p hp
    omega
  simp [isLeadChar, h1]

theorem takeWhile_congr_mem {α : Type} (p q : α → Bool) :
    ∀ (l : List α), (∀ x ∈ l, p x = q x) →
      l.takeWhile p = l.takeWhile q := by
  intro l
  induction l with
  | nil => intro h; rfl
  | cons a l ih =>
    intro h
    rw [List.takeWhile_cons, List.takeWhile_cons, h a (by simp)]
    cases hq : q a with
    | false => rfl
    | true => rw [ih (fun x hx => h x (by simp [hx]))]

theorem dropWhile_congr_mem {α : Type} (p q : α → Bool) :
    ∀ (l : List α), (∀ x ∈ l, p x = q x) →
      l.dropWhile p = l.dropWhile q := by
  intro l
  induction l with
  | nil => intro h; rfl
  | cons a l ih =>
    intro h
    rw [List.dropWhile_cons, List.dropWhile_cons, h a (by simp)]
    cases hq : q a with
    | false => rfl
    | true => rw [ih (fun x hx => h x (by simp [hx]))]

theorem mem_of_mem_takeWhile {α : Type} (p : α → Bool) :
    ∀ (l : List α) (x : α), x ∈ l.takeWhile p → x ∈ l := by
  intro l
  induction l with
  | nil =>
    intro x hx
    simp at hx
  | cons a l ih =>
    intro x hx
    rw [List.takeWhile_cons] at hx
    cases hpa : p a with
    | false =>
      rw [hpa] at hx
      simp at hx
    | true =>
      rw [hpa] at hx
      simp at hx
      rcases hx with h1 | h1
      · simp [h1]
      · simp [ih x h1]

theorem mem_of_mem_dropWhile {α : Type} (p : α → Bool) :
    ∀ (l : List α) (x : α), x ∈ l.dropWhile p → x ∈ l := by
  intro l
  induction l with
  | nil =>
    intro x hx
    simp at hx
  | cons a l ih =>
    intro x hx
    rw [List.dropWhile_cons] at hx
    cases hpa : p a with
    | false =>
      rw [hpa] at hx
      simpa using hx
    | true =>
      rw [hpa] at hx
      simp at hx
      simp [ih x hx]

/-- On ASCII inputs, tokenization by the source's class and by the
specification's stated class agree. -/
theorem specTokens_eq_ascii : ∀ (n : Nat) (l : List Char), l.length ≤ n →
    (∀ c ∈ l, c.toNat < 128) → specTokens l = specTokensA l := by
  intro n
  induction n with
  | zero =>
    intro l hl _
    have hnil : l = [] := List.eq_nil_of_length_eq_zero (Nat.le_zero.mp hl)
    subst hnil
    simp [specTokens, specTokensA]
  | succ n ih =>
    intro l hl hA
    cases l with
    | nil => simp [specTokens, specTokensA]
    | cons c cs =>
      have hk : isKeptChar c = specKeptChar c := isKeptChar_ascii c (hA c (by simp))
      have hcs : ∀ x ∈ cs, x.toNat < 128 := fun x hx => hA x (by simp [hx])
      have htw : cs.takeWhile isKeptChar = cs.takeWhile specKeptChar :=
        takeWhile_congr_mem _ _ cs (fun x hx => isKeptChar_ascii x (hcs x hx))
      have hdw : cs.dropWhile isKeptChar = cs.dropWhile specKeptChar :=
        dropWhile_congr_mem _ _ cs (fun x hx => isKeptChar_ascii x (hcs x hx))
      by_cases hc : specKeptChar c = true
      · rw [show specTokens (c :: cs) =
            (c :: cs.takeWhile isKeptChar) ::
              specTokens (cs.dropWhile isKeptChar) from by
          simp [specTokens, hk, hc]]
        rw [show specTokensA (c :: cs) =
            (c :: cs.takeWhile specKeptChar) ::
              specTokensA (cs.dropWhile specKeptChar) from by
          simp [specTokensA, hc]]
        rw [htw, hdw]
        have hrec := ih (cs.dropWhile specKeptChar)
          (by
            have h1 := dropWhile_length_le specKeptChar cs
            simp only [List.length_cons] at hl
            omega)
          (fun x hx => hcs x (mem_of_mem_dropWhile _ _ _ hx))
        rw [hrec]
      · rw [show specTokens (c :: cs) = specTokens cs from by
          simp [specTokens, hk, hc]]
        rw [show specTokensA (c :: cs) = specTokensA cs from by
          simp [specTokensA, hc]]
        refine ih cs ?_ hcs
        simp only [List.length_cons] at hl
        omega

/-- Every token of the reference tokenization is a nonempty run of input
characters. -/
theorem specTokensA_chars : ∀ (n : Nat) (l : List Char), l.length ≤ n →
    ∀ tk ∈ specTokensA l, tk ≠ [] ∧ ∀ c ∈ tk, c ∈ l := by
  intro n
  induction n with
  | zero =>
    intro l hl tk htk
    have hnil : l = [] := List.eq_nil_of_length_eq_zero (Nat.le_zero.mp hl)
    subst hnil
    simp [specTokensA] at htk
  | succ n ih =>
    intro l hl tk htk
    cases l with
    | nil => simp [specTokensA] at htk
    | cons c cs =>
      by_cases hc : specKeptChar c = true
      · rw [show specTokensA (c :: cs) =
            (c :: cs.takeWhile specKeptChar) ::
              specTokensA (cs.dropWhile specKeptChar) from by
          simp [specTokensA, hc]] at htk
        rcases List.mem_cons.mp htk with h1 | h1
        · subst h1
          refine ⟨by simp, ?_⟩
          intro x hx
          rcases List.mem_cons.mp hx with h2 | h2
          · simp [h2]
          · simp [mem_of_mem_takeWhile _ _ _ h2]
        · have hrec := ih (cs.dropWhile specKeptChar)
            (by
              have h2 := dropWhile_length_le specKeptChar cs
              simp only [List.length_cons] at hl
              omega) tk h1
          refine ⟨hrec.1, ?_⟩
          intro x hx
          simp [mem_of_mem_dropWhile _ _ _ (hrec.2 x hx)]
      · rw [show specTokensA (c :: cs) = specTokensA cs from by
          simp [specTokensA, hc]] at htk
        have hrec := ih cs
          (by simp only [List.length_cons] at hl; omega) tk htk
        refine ⟨hrec.1, ?_⟩
        intro x hx
        simp [hrec.2 x hx]

/-- Counterexample to the original claim: the source's Unicode-aware
classes keep characters outside the specification's stated class
`[A-Za-z0-9_$]`.  The Arabic-Indic digit `٣` (U+0663, matched by `\d`)
and the letter `ſ` (U+017F, case-folded into `[a-z]` by `re.IGNORECASE`)
survive normalization in the code, while the stated algorithm maps both
inputs to the `_empty_`-plus-hash fallback. -/
theorem normalize_identifier_unicode_counterexample :
    normalize_identifier "٣" = "_٣" ∧
    normalizeIdentifierSpec "٣" =
      "_empty_" ++ strTake (sha256Hex (utf8Bytes "٣")) 6 ∧
    normalize_identifier "٣" ≠ normalizeIdentifierSpec "٣" ∧
    normalize_identifier "ſ" = "ſ" ∧
    normalizeIdentifierSpec "ſ" =
      "_empty_" ++ strTake (sha256Hex (utf8Bytes "ſ")) 6 ∧
    normalize_identifier "ſ" ≠ normalizeIdentifierSpec "ſ" := by
  have ht3 : specTokensA ("٣" : String).data = [] := by
    have hkc : specKeptChar '٣' = false := by decide
    have hd : ("٣" : String).data = ['٣'] := by decide
    rw [hd]
    simp [specTokensA, hkc]
  have hs3 : normalizeIdentifierSpec "٣" =
      "_empty_" ++ strTake (sha256Hex (utf8Bytes "٣")) 6 := by
    unfold normalizeIdentifierSpec
    rw [ht3]
  have htf : specTokensA ("ſ" : String).data = [] := by
    have hkc : specKeptChar 'ſ' = false := by decide
    have hd : ("ſ" : String).data = ['ſ'] := by decide
    rw [hd]
    simp [specTokensA, hkc]
  have hsf : normalizeIdentifierSpec "ſ" =
      "_empty_" ++ strTake (sha256Hex (utf8Bytes "ſ")) 6 := by
    unfold normalizeIdentifierSpec
    rw [htf]
  refine ⟨by decide, hs3, ?_, by decide, hsf, ?_⟩
  · rw [show normalize_identifier "٣" = "_٣" from by decide, hs3]
    decide
  · rw [show normalize_identifier "ſ" = "ſ" from by decide, hsf]
    decide

/-- C8 (amended).  For ASCII inputs — every character below U+0080 —
`normalize_identifier` is a pure total function implementing the
specification's stated algorithm exactly: collapsing each run of
characters outside `[A-Za-z0-9_$]` to a single space and trimming is the
same as extracting the maximal kept-character tokens; when nothing
remains the result is the literal `_empty_` plus the first 6 hex
characters of the SHA-256 of the original input; otherwise the internal
space runs become underscores — equivalently the tokens are joined by
`_` — and a leading underscore is prepended when the result does not
start with a letter or underscore.  On non-ASCII inputs the code
deviates from the stated class: CPython's regex additionally keeps every
Unicode decimal digit and the case-folded letters `İ ı ſ K`. -/
theorem normalize_identifier_ascii_matches_spec (value : String)
    (h : ∀ c ∈ value.data, c.toNat < 128) :
    normalize_identifier value = normalizeIdentifierSpec value := by
  rw [normalize_identifier_tokens_eq]
  simp only [normalizeIdentifierTokens, normalizeIdentifierSpec]
  rw [specTokens_eq_ascii value.data.length value.data (le_refl _) h]
  cases htk : specTokensA value.data with
  | nil => rfl
  | cons tk rest =>
    dsimp only
    have hprops := specTokensA_chars value.data.length value.data (le_refl _)
    rw [htk] at hprops
    obtain ⟨hne, hmem⟩ := hprops tk (by simp)
    cases htk0 : tk with
    | nil => exact absurd htk0 hne
    | cons a as =>
      have haA : a.toNat < 128 := h a (hmem a (by rw [htk0]; simp))
      have hlead := isLeadChar_ascii a haA
      have hhead : (List.intercalate ['_'] ((a :: as) :: rest)).headD ' ' = a := by
        cases rest with
        | nil => simp [intercalate_one]
        | cons b r => simp [intercalate_cons_cons]
      rw [hhead, hlead]

theorem normalize_identifier_ascii_matches_spec_witness :
    (∀ c ∈ ("A.B. C " : String).data, c.toNat < 128) ∧
    normalize_identifier "A.B. C " = normalizeIdentifierSpec "A.B. C " :=
  ⟨by decide, normalize_identifier_ascii_matches_spec "A.B. C " (by decide)⟩
